import Mathlib

/-!
Verification development for an incremental MessagePack decoder.

The repository has three Python implementations:
* `decoder.py` — a format registry plus a `SpilloverWriter` driving a
  generator (`decoder_coroutine`); `Decoder()` wraps the two.
* `decoder_with_generators.py` — the same registry with a generator-based
  `MessagePackDecoder`.
* `mpinc.py` — an explicit-phase state-machine `Decoder` over its own
  (smaller) registry `MessagePackTypes`.

This file embeds the data model and the operational behaviour of
`decoder.py` (namespace `MsgPack`) and of `mpinc.py` (namespace `Mpinc`)
as executable Lean functions, and proves or refutes the specification
claims about them.  Python byte strings are modelled as `List Nat` (each
entry < 256 on real inputs), Python values as the inductive `Value`,
and exceptions as `Except DErr`.
-/

namespace MsgPack

/-- Dynamic Python value produced by the decoders.  `float32`/`float64`
keep the raw big-endian payload bytes of `struct.unpack` (the unpacking
is injective on these claims' uses, and no claim compares floats).
`str` holds the decoded Unicode code points.  `map` is a Python dict
modelled as its insertion-ordered association list.  `tup` is a Python
tuple (produced only by `mpinc.py`'s `build_tuple`), distinct from the
`list` values `arr` because Python `list != tuple`. -/
inductive Value where
  | nil : Value
  | bool : Bool → Value
  | int : Int → Value
  | float32 : List Nat → Value
  | float64 : List Nat → Value
  | str : List Nat → Value
  | bin : List Nat → Value
  | arr : List Value → Value
  | tup : List Value → Value
  | map : List (Value × Value) → Value
  | ext : Nat → List Nat → Value

/-- Python exceptions raised by the decoders: the `assert False, 'unknown
tag'` of `decoder.py` / `TypeError` of `mpinc.py`; `UnicodeDecodeError`
of `bytes.decode('utf8')`; the `assert len(items) % 2 == 0` of
`build_map`; `IndexError` on `buf[0]` of an empty ext payload; and a
catch-all for argument-shape mismatches that cannot occur on runs of the
actual registries. -/
inductive DErr where
  | unknownTag : Nat → DErr
  | invalidUtf8 : DErr
  | oddMap : DErr
  | indexErr : DErr
  | typeErr : DErr
deriving DecidableEq

mutual

/-- Structural equality test on `Value`, modelling Python `==` on the
decoded objects (used for dict-key comparison in `build_map`). -/
def vbeq : Value → Value → Bool
  | .nil, .nil => true
  | .bool a, .bool b => a == b
  | .int a, .int b => a == b
  | .float32 a, .float32 b => a == b
  | .float64 a, .float64 b => a == b
  | .str a, .str b => a == b
  | .bin a, .bin b => a == b
  | .arr a, .arr b => vlistBeq a b
  | .tup a, .tup b => vlistBeq a b
  | .map a, .map b => vpairsBeq a b
  | .ext t a, .ext u b => t == u && a == b
  | _, _ => false

/-- Elementwise `vbeq` on lists of values. -/
def vlistBeq : List Value → List Value → Bool
  | [], [] => true
  | a :: as', b :: bs' => vbeq a b && vlistBeq as' bs'
  | _, _ => false

/-- Elementwise `vbeq` on association lists of values. -/
def vpairsBeq : List (Value × Value) → List (Value × Value) → Bool
  | [], [] => true
  | (k, v) :: as', (k', v') :: bs' => vbeq k k' && vbeq v v' && vpairsBeq as' bs'
  | _, _ => false

end

mutual

/-- `vbeq` is reflexive (needed for dict-lookup reasoning). -/
theorem vbeq_refl : ∀ v : Value, vbeq v v = true
  | .nil => by simp [vbeq]
  | .bool a => by simp [vbeq]
  | .int a => by simp [vbeq]
  | .float32 a => by simp [vbeq]
  | .float64 a => by simp [vbeq]
  | .str a => by simp [vbeq]
  | .bin a => by simp [vbeq]
  | .arr a => by simp [vbeq, vlistBeq_refl a]
  | .tup a => by simp [vbeq, vlistBeq_refl a]
  | .map a => by simp [vbeq, vpairsBeq_refl a]
  | .ext t a => by simp [vbeq]

/-- `vlistBeq` is reflexive. -/
theorem vlistBeq_refl : ∀ l : List Value, vlistBeq l l = true
  | [] => by simp [vlistBeq]
  | a :: as' => by simp [vlistBeq, vbeq_refl a, vlistBeq_refl as']

/-- `vpairsBeq` is reflexive. -/
theorem vpairsBeq_refl : ∀ p : List (Value × Value), vpairsBeq p p = true
  | [] => by simp [vpairsBeq]
  | (k, v) :: rest => by simp [vpairsBeq, vbeq_refl k, vbeq_refl v, vpairsBeq_refl rest]

end

/-- Python `int.from_bytes(buf, byteorder='big')` on a byte string. -/
def fromBytesBE (l : List Nat) : Nat :=
  l.foldl (fun acc b => acc * 256 + b) 0

/-- Python `int.from_bytes(buf, byteorder='big', signed=True)`:
big-endian two's-complement interpretation. -/
def toSignedBE (l : List Nat) : Int :=
  let n := fromBytesBE l
  if l.length = 0 then 0
  else if n < 2 ^ (8 * l.length - 1) then (n : Int)
  else (n : Int) - 2 ^ (8 * l.length)

/-- Python's strict UTF-8 decoder (`bytes.decode('utf8')`): rejects
truncated sequences, stray continuation bytes, overlong forms
(0xc0/0xc1, low 3- and 4-byte leads), surrogates (0xed a0..bf) and
code points above 0x10ffff (0xf5.. and 0xf4 90..).  Returns the list of
decoded code points. -/
def utf8Decode : List Nat → Option (List Nat)
  | [] => some []
  | b :: rest =>
    if b ≤ 0x7f then
      (utf8Decode rest).map (b :: ·)
    else if 0xc2 ≤ b ∧ b ≤ 0xdf then
      match rest with
      | c1 :: rest2 =>
        if 0x80 ≤ c1 ∧ c1 ≤ 0xbf then
          (utf8Decode rest2).map (((b - 0xc0) * 0x40 + (c1 - 0x80)) :: ·)
        else none
      | [] => none
    else if 0xe0 ≤ b ∧ b ≤ 0xef then
      match rest with
      | c1 :: c2 :: rest2 =>
        if (if b = 0xe0 then 0xa0 else 0x80) ≤ c1 ∧ c1 ≤ (if b = 0xed then 0x9f else 0xbf)
            ∧ 0x80 ≤ c2 ∧ c2 ≤ 0xbf then
          (utf8Decode rest2).map
            (((b - 0xe0) * 0x1000 + (c1 - 0x80) * 0x40 + (c2 - 0x80)) :: ·)
        else none
      | _ => none
    else if 0xf0 ≤ b ∧ b ≤ 0xf4 then
      match rest with
      | c1 :: c2 :: c3 :: rest2 =>
        if (if b = 0xf0 then 0x90 else 0x80) ≤ c1 ∧ c1 ≤ (if b = 0xf4 then 0x8f else 0xbf)
            ∧ 0x80 ≤ c2 ∧ c2 ≤ 0xbf ∧ 0x80 ≤ c3 ∧ c3 ≤ 0xbf then
          (utf8Decode rest2).map
            (((b - 0xf0) * 0x40000 + (c1 - 0x80) * 0x1000 + (c2 - 0x80) * 0x40 + (c3 - 0x80)) :: ·)
        else none
      | _ => none
    else none

/-- One step of Python dict assignment `d[k] = v`: replace the value of
an existing equal key in place, else append the new pair. -/
def dictInsert : List (Value × Value) → Value → Value → List (Value × Value)
  | [], k, v => [(k, v)]
  | (k', v') :: rest, k, v =>
    if vbeq k' k then (k', v) :: rest else (k', v') :: dictInsert rest k v

/-- Lookup in the dict model, using Python value equality. -/
def dictLookup : List (Value × Value) → Value → Option Value
  | [], _ => none
  | (k', v') :: rest, k => if vbeq k' k then some v' else dictLookup rest k

/-- The dict comprehension of `build_map`: pair consecutive items as
key then value and insert sequentially (`len // 2` pairs, so a trailing
odd item would be dropped). -/
def pairsToDict : List (Value × Value) → List Value → List (Value × Value)
  | acc, k :: v :: rest => pairsToDict (dictInsert acc k v) rest
  | acc, _ => acc

/-- Names for the `build_fn` closures passed to `make_format` in
`decoder.py` (one per builder function in the source). -/
inductive BuildFn where
  | nilB : BuildFn
  | falseB : BuildFn
  | trueB : BuildFn
  | posFixB : BuildFn
  | negFixB : BuildFn
  | uintB : BuildFn
  | intB : BuildFn
  | floatB : BuildFn
  | doubleB : BuildFn
  | strB : BuildFn
  | binB : BuildFn
  | arrayB : BuildFn
  | mapB : BuildFn
  | extB : BuildFn
deriving DecidableEq

/-- Names for the `L_fn` closures of `decoder.py`: the default identity,
`map_len` (`2*N`) and `ext_len` (`N+1`). -/
inductive LFn where
  | idL : LFn
  | mapL : LFn
  | extL : LFn
deriving DecidableEq

/-- Evaluate an `L_fn`. -/
def runLFn : LFn → Nat → Nat
  | .idL, n => n
  | .mapL, n => 2 * n
  | .extL, n => n + 1

/-- The argument passed to a `build_fn`: the number `N` (when `L_const`
is 0), the assembled payload bytes, or the list of child objects. -/
inductive BuildArg where
  | num : Nat → BuildArg
  | bytes : List Nat → BuildArg
  | objs : List Value → BuildArg

/-- The `Format` class of `decoder.py`: tag pattern, builder, derived
`tag_mask`/`N_mask`, explicit length-field width `N_size`, payload kind,
and the `L` rule (`L_const` or `L_fn`). -/
structure Format where
  tag : Nat
  name : String
  build_fn : BuildFn
  tag_mask : Nat
  N_mask : Nat
  N_size : Nat
  holds_objects : Bool
  L_const : Option Nat
  L_fn : LFn
deriving DecidableEq

/-- `Format.__init__`: masks are derived from `tag_bits` exactly as in
the source (`tag_mask = (255 << (8-tag_bits)) % 256`,
`N_mask = 255 ^ tag_mask`). -/
def make_format (tag : Nat) (name : String) (build_fn : BuildFn) (tag_bits : Nat)
    (N_size : Nat) (holds_objects : Bool) (L_const : Option Nat) (L_fn : LFn) : Format :=
  ⟨tag, name, build_fn, (255 <<< (8 - tag_bits)) % 256,
    255 ^^^ ((255 <<< (8 - tag_bits)) % 256), N_size, holds_objects, L_const, L_fn⟩

/-- `Format.get_N_and_L`: `N` is the big-endian value of the explicit
length field when present, else the tag byte masked by `N_mask`; `L` is
`L_const` when set, else `L_fn N`. -/
def get_N_and_L (f : Format) (tag_byte : Nat) (N_buf : List Nat) : Nat × Nat :=
  let N := if N_buf.length > 0 then fromBytesBE N_buf else tag_byte &&& f.N_mask
  let L := match f.L_const with
    | some c => c
    | none => runLFn f.L_fn N
  (N, L)

/-- Apply a named builder function to its argument.  Arguments of a
shape the Python closure is never called with map to `typeErr`. -/
def runBuild : BuildFn → BuildArg → Except DErr Value
  | .nilB, _ => .ok .nil
  | .falseB, _ => .ok (.bool false)
  | .trueB, _ => .ok (.bool true)
  | .posFixB, .num n => .ok (.int n)
  | .posFixB, _ => .error .typeErr
  | .negFixB, .num n => .ok (.int (-(n : Int)))
  | .negFixB, _ => .error .typeErr
  | .uintB, .bytes bs => .ok (.int (fromBytesBE bs))
  | .uintB, _ => .error .typeErr
  | .intB, .bytes bs => .ok (.int (toSignedBE bs))
  | .intB, _ => .error .typeErr
  | .floatB, .bytes bs => .ok (.float32 bs)
  | .floatB, _ => .error .typeErr
  | .doubleB, .bytes bs => .ok (.float64 bs)
  | .doubleB, _ => .error .typeErr
  | .strB, .bytes bs =>
    match utf8Decode bs with
    | some cs => .ok (.str cs)
    | none => .error .invalidUtf8
  | .strB, _ => .error .typeErr
  | .binB, .bytes bs => .ok (.bin bs)
  | .binB, _ => .error .typeErr
  | .arrayB, .objs items => .ok (.arr items)
  | .arrayB, _ => .error .typeErr
  | .mapB, .objs items =>
    if items.length % 2 = 0 then .ok (.map (pairsToDict [] items))
    else .error .oddMap
  | .mapB, _ => .error .typeErr
  | .extB, .bytes [] => .error .indexErr
  | .extB, .bytes (t :: ds) => .ok (.ext t ds)
  | .extB, _ => .error .typeErr

/-- `Format.build`: the builder receives `N` when `L_const == 0`, else
the payload. -/
def buildVal (f : Format) (N : Nat) (payload : BuildArg) : Except DErr Value :=
  if f.L_const = some 0 then runBuild f.build_fn (.num N)
  else runBuild f.build_fn payload

/-- `make_format(0xc0, "nil", ...)`. -/
def fmt_nil : Format := make_format 0xc0 "nil" .nilB 8 0 false none .idL

/-- `make_format(0xc2, "false", ...)`. -/
def fmt_false : Format := make_format 0xc2 "false" .falseB 8 0 false none .idL

/-- `make_format(0xc3, ...)` (the source misnames it "false" but builds
`True`). -/
def fmt_true : Format := make_format 0xc3 "false" .trueB 8 0 false none .idL

/-- `make_format(0x00, "positive fixint", ..., tag_bits=1, L_const=0)`. -/
def fmt_positive_fixint : Format :=
  make_format 0x00 "positive fixint" .posFixB 1 0 false (some 0) .idL

/-- `make_format(0xe0, "negative fixint", ..., tag_bits=3, L_const=0)`. -/
def fmt_negative_fixint : Format :=
  make_format 0xe0 "negative fixint" .negFixB 3 0 false (some 0) .idL

/-- `make_format(0xcc, "uint8", build_uint, L_const=1)`. -/
def fmt_uint8 : Format := make_format 0xcc "uint8" .uintB 8 0 false (some 1) .idL

/-- `make_format(0xcd, "uint16", build_uint, L_const=2)`. -/
def fmt_uint16 : Format := make_format 0xcd "uint16" .uintB 8 0 false (some 2) .idL

/-- `make_format(0xce, "uint32", build_uint, L_const=4)`. -/
def fmt_uint32 : Format := make_format 0xce "uint32" .uintB 8 0 false (some 4) .idL

/-- `make_format(0xcf, "uint64", build_uint, L_const=8)`. -/
def fmt_uint64 : Format := make_format 0xcf "uint64" .uintB 8 0 false (some 8) .idL

/-- `make_format(0xcc, "int8", build_int, L_const=1)` — note the source
registers the signed formats at the same tags `0xcc..0xcf` as the
unsigned ones, not at `0xd0..0xd3`. -/
def fmt_int8 : Format := make_format 0xcc "int8" .intB 8 0 false (some 1) .idL

/-- `make_format(0xcd, "int16", build_int, L_const=2)`. -/
def fmt_int16 : Format := make_format 0xcd "int16" .intB 8 0 false (some 2) .idL

/-- `make_format(0xce, "int32", build_int, L_const=4)`. -/
def fmt_int32 : Format := make_format 0xce "int32" .intB 8 0 false (some 4) .idL

/-- `make_format(0xcf, "int64", build_int, L_const=8)`. -/
def fmt_int64 : Format := make_format 0xcf "int64" .intB 8 0 false (some 8) .idL

/-- `make_format(0xca, "float32", build_float, L_const=4)`. -/
def fmt_float32 : Format := make_format 0xca "float32" .floatB 8 0 false (some 4) .idL

/-- `make_format(0xcb, "float64", build_double, L_const=8)`. -/
def fmt_float64 : Format := make_format 0xcb "float64" .doubleB 8 0 false (some 8) .idL

/-- `make_format(0xa0, "fixstr", build_str, tag_bits=3)`. -/
def fmt_fixstr : Format := make_format 0xa0 "fixstr" .strB 3 0 false none .idL

/-- `make_format(0xd9, "str8", build_str, N_size=1)`. -/
def fmt_str8 : Format := make_format 0xd9 "str8" .strB 8 1 false none .idL

/-- `make_format(0xda, "str16", build_str, N_size=2)`. -/
def fmt_str16 : Format := make_format 0xda "str16" .strB 8 2 false none .idL

/-- `make_format(0xdb, "str32", build_str, N_size=4)`. -/
def fmt_str32 : Format := make_format 0xdb "str32" .strB 8 4 false none .idL

/-- `make_format(0xc4, "bin8", build_bin, N_size=1)`. -/
def fmt_bin8 : Format := make_format 0xc4 "bin8" .binB 8 1 false none .idL

/-- `make_format(0xc5, "bin16", build_bin, N_size=2)`. -/
def fmt_bin16 : Format := make_format 0xc5 "bin16" .binB 8 2 false none .idL

/-- `make_format(0xc6, "bin32", build_bin, N_size=4)`. -/
def fmt_bin32 : Format := make_format 0xc6 "bin32" .binB 8 4 false none .idL

/-- `make_format(0x90, "fixarray", build_array, tag_bits=4,
holds_objects=True)`. -/
def fmt_fixarray : Format := make_format 0x90 "fixarray" .arrayB 4 0 true none .idL

/-- `make_format(0xdc, "array16", build_array, N_size=2,
holds_objects=True)`. -/
def fmt_array16 : Format := make_format 0xdc "array16" .arrayB 8 2 true none .idL

/-- `make_format(0xdd, "array32", build_array, N_size=4,
holds_objects=True)`. -/
def fmt_array32 : Format := make_format 0xdd "array32" .arrayB 8 4 true none .idL

/-- `make_format(0x80, "fixmap", build_map, tag_bits=4, L_fn=map_len,
holds_objects=True)`. -/
def fmt_fixmap : Format := make_format 0x80 "fixmap" .mapB 4 0 true none .mapL

/-- `make_format(0xde, "map16", build_map, N_size=2, L_fn=map_len,
holds_objects=True)`. -/
def fmt_map16 : Format := make_format 0xde "map16" .mapB 8 2 true none .mapL

/-- `make_format(0xdf, "map32", build_map, N_size=4, L_fn=map_len,
holds_objects=True)`. -/
def fmt_map32 : Format := make_format 0xdf "map32" .mapB 8 4 true none .mapL

/-- `make_format(0xd4, "fixext1", build_ext, L_const=2)`. -/
def fmt_fixext1 : Format := make_format 0xd4 "fixext1" .extB 8 0 false (some 2) .idL

/-- `make_format(0xd5, "fixext2", build_ext, L_const=3)`. -/
def fmt_fixext2 : Format := make_format 0xd5 "fixext2" .extB 8 0 false (some 3) .idL

/-- `make_format(0xd6, "fixext4", build_ext, L_const=5)`. -/
def fmt_fixext4 : Format := make_format 0xd6 "fixext4" .extB 8 0 false (some 5) .idL

/-- `make_format(0xd7, "fixext8", build_ext, L_const=9)`. -/
def fmt_fixext8 : Format := make_format 0xd7 "fixext8" .extB 8 0 false (some 9) .idL

/-- `make_format(0xd8, "fixext16", build_ext, L_const=17)`. -/
def fmt_fixext16 : Format := make_format 0xd8 "fixext16" .extB 8 0 false (some 17) .idL

/-- `make_format(0xc7, "ext8", build_ext, N_size=1, L_fn=ext_len)`. -/
def fmt_ext8 : Format := make_format 0xc7 "ext8" .extB 8 1 false none .extL

/-- `make_format(0xc8, "ext16", build_ext, N_size=2, L_fn=ext_len)`. -/
def fmt_ext16 : Format := make_format 0xc8 "ext16" .extB 8 2 false none .extL

/-- `make_format(0xc9, "ext32", build_ext, N_size=4, L_fn=ext_len)`. -/
def fmt_ext32 : Format := make_format 0xc9 "ext32" .extB 8 4 false none .extL

/-- The `formats` list of `decoder.py`, in registration order (the order
matters: `get_format` returns the first match). -/
def formats : List Format :=
  [fmt_nil, fmt_false, fmt_true,
   fmt_positive_fixint, fmt_negative_fixint,
   fmt_uint8, fmt_uint16, fmt_uint32, fmt_uint64,
   fmt_int8, fmt_int16, fmt_int32, fmt_int64,
   fmt_float32, fmt_float64,
   fmt_fixstr, fmt_str8, fmt_str16, fmt_str32,
   fmt_bin8, fmt_bin16, fmt_bin32,
   fmt_fixarray, fmt_array16, fmt_array32,
   fmt_fixmap, fmt_map16, fmt_map32,
   fmt_fixext1, fmt_fixext2, fmt_fixext4, fmt_fixext8, fmt_fixext16,
   fmt_ext8, fmt_ext16, fmt_ext32]

/-- `get_format`: first format whose masked tag matches, `none` when the
source would hit `assert False, 'unknown tag'`. -/
def get_format (tag_byte : Nat) : Option Format :=
  formats.find? (fun f => tag_byte &&& f.tag_mask == f.tag)

/-- Helper for the termination measures below: a lexicographic pair
decreases when the first component does not grow and the second
strictly shrinks. -/
theorem prodLexOfLeLt {a a' b b' : Nat} (h1 : a' ≤ a) (h2 : b' < b) :
    Prod.Lex (fun x y : Nat => x < y) (fun x y : Nat => x < y) (a', b') (a, b) := by
  rcases Nat.lt_or_ge a' a with h | h
  · exact Prod.Lex.left _ _ h
  · have heq : a' = a := Nat.le_antisymm h1 h
    subst heq
    exact Prod.Lex.right _ h2

/-- The byte-accumulator feed of `SpilloverWriter.write`: how many of
the available bytes a buffer of capacity `cap` already holding `got`
takes (`available = buf[written:written+capacity]`). -/
def fillTake (cap : Nat) (got input : List Nat) : Nat :=
  min (cap - got.length) input.length

/-- The buffer contents after the feed (`self._writer.extend(available)`). -/
def fillBuf (cap : Nat) (got input : List Nat) : List Nat :=
  got ++ input.take (fillTake cap got input)

/-- The input left over after the feed. -/
def fillRest (cap : Nat) (got input : List Nat) : List Nat :=
  input.drop (fillTake cap got input)

/-- Resting state of the suspended `decoder_coroutine` together with the
partially filled buffer currently held by the `SpilloverWriter`:
* `tagS` — the 1-byte tag buffer was yielded and is still empty (it
  fills and is resolved within the write call that supplies the byte);
* `nS tag_byte f got` — the `N_buf` of capacity `f.N_size` was yielded,
  `got` received so far;
* `payloadS f N L got` — an opaque payload buffer of capacity `L` was
  yielded, `got` received so far;
* `childS f N L items child` — a container payload: `items` completed
  children, the live child suspended at `child`. -/
inductive CoState where
  | tagS : CoState
  | nS : Nat → Format → List Nat → CoState
  | payloadS : Format → Nat → Nat → List Nat → CoState
  | childS : Format → Nat → Nat → List Value → CoState → CoState

mutual

/-- Resume the suspended coroutine-plus-writer on `input`, mirroring
`SpilloverWriter.write`: fill the current buffer up to its remaining
capacity, and whenever a buffer fills (including capacity-0 buffers,
the "keep going" branch of the source) re-enter `decoder_coroutine`
for the next buffer, spilling the remaining input into it.  Returns
either the next resting state or the decoded value (the coroutine's
`StopIteration` value), along with the number of bytes consumed; a
Python exception aborts the call as `.error`. -/
def coWrite (s : CoState) (input : List Nat) : Except DErr ((CoState ⊕ Value) × Nat) :=
  match s, input with
  | .tagS, [] => .ok (.inl .tagS, 0)
  | .tagS, b :: rest =>
    match get_format b with
    | none => .error (.unknownTag b)
    | some f =>
      match coWrite (.nS b f []) rest with
      | .error e => .error e
      | .ok (r, c) => .ok (r, 1 + c)
  | .nS b f got, input =>
    if (fillBuf f.N_size got input).length < f.N_size then
      .ok (.inl (.nS b f (fillBuf f.N_size got input)), fillTake f.N_size got input)
    else
      match get_N_and_L f b (fillBuf f.N_size got input) with
      | (N, L) =>
        if f.holds_objects then
          match childLoop f N L [] (fillRest f.N_size got input) with
          | .error e => .error e
          | .ok (r, c) => .ok (r, fillTake f.N_size got input + c)
        else
          if (fillBuf L [] (fillRest f.N_size got input)).length < L then
            .ok (.inl (.payloadS f N L (fillBuf L [] (fillRest f.N_size got input))),
              fillTake f.N_size got input + fillTake L [] (fillRest f.N_size got input))
          else
            match buildVal f N (.bytes (fillBuf L [] (fillRest f.N_size got input))) with
            | .error e => .error e
            | .ok v =>
              .ok (.inr v,
                fillTake f.N_size got input + fillTake L [] (fillRest f.N_size got input))
  | .payloadS f N L got, input =>
    if (fillBuf L got input).length < L then
      .ok (.inl (.payloadS f N L (fillBuf L got input)), fillTake L got input)
    else
      match buildVal f N (.bytes (fillBuf L got input)) with
      | .error e => .error e
      | .ok v => .ok (.inr v, fillTake L got input)
  | .childS f N L items child, input =>
    match coWrite child input with
    | .error e => .error e
    | .ok (.inl child2, c) => .ok (.inl (.childS f N L items child2), c)
    | .ok (.inr v, c) =>
      match childLoop f N L (items ++ [v]) (input.drop c) with
      | .error e => .error e
      | .ok (r2, c2) => .ok (r2, c + c2)
termination_by (input.length, sizeOf s)
decreasing_by
  · apply Prod.Lex.left
    simp
  · apply prodLexOfLeLt
    all_goals simp [fillRest, fillTake]
  · apply prodLexOfLeLt
    all_goals simp [fillRest, fillTake]
  · apply prodLexOfLeLt
    all_goals simp [fillRest, fillTake]

/-- The `for i in range(L)` loop of `decoder_coroutine` for container
payloads: while fewer than `L` children have completed, start a fresh
child coroutine (whose first buffer is the 1-byte tag) on the remaining
input; a child that completes is appended and the loop continues with
the input it left unconsumed.  When `L` children are done, build the
container value. -/
def childLoop (f : Format) (N L : Nat) (items : List Value) (input : List Nat) :
    Except DErr ((CoState ⊕ Value) × Nat) :=
  if items.length < L then
    match input with
    | [] => .ok (.inl (.childS f N L items .tagS), 0)
    | b :: rest =>
      match get_format b with
      | none => .error (.unknownTag b)
      | some cf =>
        match coWrite (.nS b cf []) rest with
        | .error e => .error e
        | .ok (.inl child2, c) => .ok (.inl (.childS f N L items child2), 1 + c)
        | .ok (.inr v, c) =>
          match childLoop f N L (items ++ [v]) (rest.drop c) with
          | .error e => .error e
          | .ok (r2, c2) => .ok (r2, 1 + c + c2)
  else
    match buildVal f N (.objs items) with
    | .error e => .error e
    | .ok v => .ok (.inr v, 0)
termination_by (input.length, 0)
decreasing_by
  · apply Prod.Lex.left
    simp
  · apply Prod.Lex.left
    simp
    omega

end

/-- `SpilloverWriter` as constructed by `Decoder()`: the `full` flag,
the `value` attribute (initially Python `None`), and the generator —
`some s` while suspended at `s`, `none` once it has raised
`StopIteration`. -/
structure SpilloverWriter where
  full : Bool
  value : Value
  gen : Option CoState

/-- `Decoder()`: a fresh `SpilloverWriter` over `decoder_coroutine()`
(the un-started generator behaves like one suspended at the tag
buffer). -/
def Decoder : SpilloverWriter := ⟨false, .nil, some .tagS⟩

/-- `SpilloverWriter.write`.  When the generator is already exhausted,
`next(self._iterator)` raises a fresh `StopIteration` whose `value`
attribute is `None`: the writer sets `full = True`, overwrites `value`
with `None`, and returns 0. -/
def write (s : SpilloverWriter) (buf : List Nat) : Except DErr (SpilloverWriter × Nat) :=
  match s.gen with
  | none => .ok (⟨true, .nil, none⟩, 0)
  | some c =>
    match coWrite c buf with
    | .error e => .error e
    | .ok (.inl c2, n) => .ok (⟨s.full, s.value, some c2⟩, n)
    | .ok (.inr v, n) => .ok (⟨true, v, none⟩, n)

/-- Feed a sequence of chunks with successive `write` calls, returning
the final writer state and the total bytes consumed. -/
def runWrites : SpilloverWriter → List (List Nat) → Except DErr (SpilloverWriter × Nat)
  | s, [] => .ok (s, 0)
  | s, b :: bs =>
    match write s b with
    | .error e => .error e
    | .ok (s2, c) =>
      match runWrites s2 bs with
      | .error e => .error e
      | .ok (s3, c2) => .ok (s3, c + c2)

/-- The `MessagePackDecoder` of `decoder_with_generators.py`: `_full`,
`_result` (Python `None` initially) and the `fill` generator, `none`
once exhausted.  `DelegatableBuffer(size).fill` reads
`min(needed, available)` bytes from the current `BytesIO` into its
buffer and suspends (`yield`) while short — exactly the
accumulate-then-spill feed modelled by `fillTake`/`fillBuf`/`fillRest`
above — and `MessagePackDecoder.fill` drives a 1-byte tag buffer, the
`format.N_size` buffer, then either the `while len(payload_list) < L`
child loop (`yield from subdecoder.fill`) or the `L`-byte payload
buffer, with the same capacities, reads and suspension points as
`decoder_coroutine`, so a suspended `fill` is a `CoState` and one
`send` advances it as `coWrite`. -/
structure GenDecoder where
  full : Bool
  result : Value
  gen : Option CoState

/-- `MessagePackDecoder.__init__`: `next(self._generator)` runs `fill`
to its first suspension, the still-empty tag buffer. -/
def GenDecoder.init : GenDecoder := ⟨false, .nil, some .tagS⟩

/-- `MessagePackDecoder.write`: wrap `buf` in a `BytesIO`, `send` it to
the generator, swallow `StopIteration`, and return `bytesio.tell()` —
the number of bytes the generator read.  On an already exhausted
generator the `send` raises `StopIteration` at once: nothing is
modified and the position is still 0 (unlike `SpilloverWriter.write`,
no attribute is overwritten).  When `fill` finishes during the call it
has itself set `_full = True` and `_result` before returning. -/
def gwrite (g : GenDecoder) (buf : List Nat) : Except DErr (GenDecoder × Nat) :=
  match g.gen with
  | none => .ok (g, 0)
  | some st =>
    match coWrite st buf with
    | .error e => .error e
    | .ok (.inl st2, c) => .ok (⟨g.full, g.result, some st2⟩, c)
    | .ok (.inr v, c) => .ok (⟨true, v, none⟩, c)

/-- A format whose builder is `build_map` computes `L` with `map_len`
and has no `L_const`: the registry property that makes the odd-map
check of `build_map` unreachable. -/
def mapSafe (f : Format) : Bool :=
  f.build_fn != .mapB || (f.L_const == none && f.L_fn == .mapL)

/-- Invariant of the coroutine states reachable from a fresh decoder:
a suspended length buffer holds a registry-shaped format, and a
suspended child loop has an even `L` whenever its builder is
`build_map` and strictly fewer completed items than `L`. -/
def safeState : CoState → Bool
  | .tagS => true
  | .nS _ f _ => mapSafe f
  | .payloadS _ _ _ _ => true
  | .childS f _ L items child =>
    (f.build_fn != .mapB || decide (L % 2 = 0)) &&
      decide (items.length < L) && safeState child

/-- The invariant lifted to the writer: it constrains the suspended
state while the generator is live. -/
def safeSW (w : SpilloverWriter) : Bool :=
  match w.gen with
  | none => true
  | some s => safeState s

/-- Result predicate for the invariant-preservation proof: the call did
not die with the odd-map internal assertion, and a suspended
continuation still satisfies the invariant. -/
def okRes : Except DErr ((CoState ⊕ Value) × Nat) → Prop
  | .error e => e ≠ DErr.oddMap
  | .ok (.inl s, _) => safeState s = true
  | .ok (.inr _, _) => True

end MsgPack

namespace Mpinc

open MsgPack (Value DErr BuildArg fromBytesBE utf8Decode pairsToDict prodLexOfLeLt)

/-- Names for the `builder_fn` closures of `mpinc.py`'s second
`make_type` (the one whose table `MessagePackTypes` the `Decoder`
actually uses).  These builders take `N` and the payload. -/
inductive MpBuildFn where
  | returnN : MpBuildFn
  | mapB : MpBuildFn
  | tupleB : MpBuildFn
  | strB : MpBuildFn
  | nilB : MpBuildFn
  | falseB : MpBuildFn
  | trueB : MpBuildFn
  | bytesB : MpBuildFn
  | extB : MpBuildFn
deriving DecidableEq

/-- Names for the `size_fn` closures of `mpinc.py`: the default
identity, `size_const(0)`, `size_map` (`2*N`) and `size_ext` (`N+1`). -/
inductive MpSizeFn where
  | idS : MpSizeFn
  | constZero : MpSizeFn
  | mapS : MpSizeFn
  | extS : MpSizeFn
deriving DecidableEq

/-- Evaluate a `size_fn`. -/
def runMpSizeFn : MpSizeFn → Nat → Nat
  | .idS, n => n
  | .constZero, _ => 0
  | .mapS, n => 2 * n
  | .extS, n => n + 1

/-- The static part of an `mpinc.py` `Type` class (the closure of the
second `make_type`): tag, derived masks, explicit size-field width,
container flag, size rule and builder. -/
structure MpT where
  tag : Nat
  name : String
  tag_mask : Nat
  size_mask : Nat
  size_len : Nat
  is_container : Bool
  size_fn : MpSizeFn
  build_fn : MpBuildFn
deriving DecidableEq

/-- The second `make_type` of `mpinc.py` (line 189), which builds the
entries of `MessagePackTypes`. -/
def make_type (tag : Nat) (name : String) (builder_fn : MpBuildFn) (size_len : Nat)
    (tag_bits : Nat) (is_container : Bool) (size_fn : MpSizeFn) : MpT :=
  ⟨tag, name, (255 <<< (8 - tag_bits)) % 256, 255 ^^^ ((255 <<< (8 - tag_bits)) % 256),
    size_len, is_container, size_fn, builder_fn⟩

/-- The `MessagePackTypes` list of `mpinc.py` — the registry the
state-machine `Decoder` scans (note: only 14 entries; the earlier,
larger `types` table in the same file is dead code for this decoder). -/
def MessagePackTypes : List MpT :=
  [make_type 0x00 "positive fixint" .returnN 0 1 false .constZero,
   make_type 0x80 "fixmap" .mapB 0 4 true .mapS,
   make_type 0x90 "fixarray" .tupleB 0 4 true .idS,
   make_type 0xa0 "fixstr" .strB 0 3 false .idS,
   make_type 0xc0 "nil" .nilB 0 8 false .constZero,
   make_type 0xc2 "false" .falseB 0 8 false .constZero,
   make_type 0xc3 "true" .trueB 0 8 false .constZero,
   make_type 0xc4 "bin8" .bytesB 1 8 false .idS,
   make_type 0xc5 "bin16" .bytesB 2 8 false .idS,
   make_type 0xc6 "bin32" .bytesB 4 8 false .idS,
   make_type 0xc7 "ext8" .extB 1 8 false .extS,
   make_type 0xc8 "ext16" .extB 2 8 false .extS,
   make_type 0xc9 "ext32" .extB 4 8 false .extS,
   make_type 0xdc "array16" .tupleB 2 8 true .idS]

/-- `Type.matches_tag`. -/
def matches_tag (T : MpT) (b : Nat) : Bool :=
  b &&& T.tag_mask == T.tag

/-- The scan in `Decoder._read_type`: first matching type, else the
`TypeError('unknown tag byte')`. -/
def lookupT (b : Nat) : Option MpT :=
  MessagePackTypes.find? (fun T => matches_tag T b)

/-- `Type.get_N`: from the masked tag byte when `size_len` is 0, else
the big-endian value of the size buffer. -/
def mpGetN (T : MpT) (tag_byte : Nat) (size_buffer : List Nat) : Nat :=
  if T.size_len = 0 then T.size_mask &&& tag_byte
  else fromBytesBE size_buffer

/-- Apply an `mpinc.py` builder to `N` and the payload.  Note
`build_map` here has no parity assertion (`len // 2` pairs, trailing
odd item dropped) and `build_tuple` produces a Python tuple. -/
def runMpBuild : MpBuildFn → Nat → BuildArg → Except DErr Value
  | .returnN, n, _ => .ok (.int n)
  | .nilB, _, _ => .ok .nil
  | .falseB, _, _ => .ok (.bool false)
  | .trueB, _, _ => .ok (.bool true)
  | .bytesB, _, .bytes bs => .ok (.bin bs)
  | .bytesB, _, _ => .error .typeErr
  | .strB, _, .bytes bs =>
    match utf8Decode bs with
    | some cs => .ok (.str cs)
    | none => .error .invalidUtf8
  | .strB, _, _ => .error .typeErr
  | .tupleB, _, .objs items => .ok (.tup items)
  | .tupleB, _, _ => .error .typeErr
  | .mapB, _, .objs items => .ok (.map (pairsToDict [] items))
  | .mapB, _, _ => .error .typeErr
  | .extB, _, .bytes [] => .error .indexErr
  | .extB, _, .bytes (t :: ds) => .ok (.ext t ds)
  | .extB, _, _ => .error .typeErr

/-- `Type.build`: recompute `N` from the size buffer, then apply the
builder. -/
def mpBuild (T : MpT) (tag_byte : Nat) (size_buffer : List Nat) (payload : BuildArg) :
    Except DErr Value :=
  runMpBuild T.build_fn (mpGetN T tag_byte size_buffer) payload

/-- `Type.size`: the payload length, `size_fn` applied to `N`. -/
def typeSize (T : MpT) (tag_byte : Nat) (size_buffer : List Nat) : Nat :=
  runMpSizeFn T.size_fn (mpGetN T tag_byte size_buffer)

/-- The mutable state of an `mpinc.py` `Decoder` instance: `has_value`,
`value`, `_size_buffer`, `_type` (static type plus its stored tag byte),
`_size`, `_payload_buffer`, `_payload_list`, `_child_decoder`. -/
inductive MDec where
  | mk : Bool → Value → List Nat → Option (MpT × Nat) → Option Nat → List Nat →
      List Value → Option MDec → MDec

/-- Projection: `has_value`. -/
def MDec.has_value : MDec → Bool
  | .mk hv _ _ _ _ _ _ _ => hv

/-- Projection: `value`. -/
def MDec.value : MDec → Value
  | .mk _ v _ _ _ _ _ _ => v

/-- Projection: `_size_buffer`. -/
def MDec.size_buffer : MDec → List Nat
  | .mk _ _ sb _ _ _ _ _ => sb

/-- Projection: `_type` with its tag byte. -/
def MDec.typeI : MDec → Option (MpT × Nat)
  | .mk _ _ _ t _ _ _ _ => t

/-- Projection: `_size`. -/
def MDec.size : MDec → Option Nat
  | .mk _ _ _ _ s _ _ _ => s

/-- Projection: `_payload_buffer`. -/
def MDec.payload_buffer : MDec → List Nat
  | .mk _ _ _ _ _ pb _ _ => pb

/-- Projection: `_payload_list`. -/
def MDec.payload_list : MDec → List Value
  | .mk _ _ _ _ _ _ pl _ => pl

/-- Projection: `_child_decoder`. -/
def MDec.child : MDec → Option MDec
  | .mk _ _ _ _ _ _ _ c => c

/-- `Decoder.__init__`. -/
def freshD : MDec := .mk false .nil [] none none [] [] none

/-- A decoder field is strictly smaller than the decoder (for the
termination measures below). -/
theorem child_sizeOf_lt (d : MDec) : sizeOf d.child < sizeOf d := by
  cases d
  simp [MDec.child]

/-- Record the resolved type: `self._type = T(tag_byte)`. -/
def setType (d : MDec) (T : MpT) (tag_byte : Nat) : MDec :=
  match d with
  | .mk hv v sb _ s pb pl c => .mk hv v sb (some (T, tag_byte)) s pb pl c

/-- Record the size buffer and (optionally) the resolved `_size`. -/
def setSize (d : MDec) (sb : List Nat) (s : Option Nat) : MDec :=
  match d with
  | .mk hv v _ t _ pb pl c => .mk hv v sb t s pb pl c

/-- `_write_into_bytes` completion/suspension bookkeeping: replace the
payload buffer, and on completion set `has_value`/`value`. -/
def setBytesState (d : MDec) (pb : List Nat) (done : Option Value) : MDec :=
  match d, done with
  | .mk _ _ sb t s _ pl c, some v => .mk true v sb t s pb pl c
  | .mk hv v sb t s _ pl c, none => .mk hv v sb t s pb pl c

/-- `_write_into_container` bookkeeping: replace the item list and live
child, and on completion set `has_value`/`value`. -/
def setContState (d : MDec) (items : List Value) (c2 : Option MDec) (done : Option Value) :
    MDec :=
  match d, done with
  | .mk _ _ sb t s pb _ _, some v => .mk true v sb t s pb items none
  | .mk hv v sb t s pb _ _, none => .mk hv v sb t s pb items c2

/-- `Decoder._write_into_bytes` (not recursive): fill the payload
buffer from the remaining input; on fill, build the value. -/
def writeIntoBytes (d : MDec) (T : MpT) (tag_byte : Nat) (s : Nat) (remaining : List Nat) :
    Except DErr (MDec × Nat) :=
  if (MsgPack.fillBuf s d.payload_buffer remaining).length = s then
    match mpBuild T tag_byte d.size_buffer
        (.bytes (MsgPack.fillBuf s d.payload_buffer remaining)) with
    | .error e => .error e
    | .ok v =>
      .ok (setBytesState d (MsgPack.fillBuf s d.payload_buffer remaining) (some v),
        MsgPack.fillTake s d.payload_buffer remaining)
  else
    .ok (setBytesState d (MsgPack.fillBuf s d.payload_buffer remaining) none,
      MsgPack.fillTake s d.payload_buffer remaining)

mutual

/-- `Decoder.write`: no-op on empty input or when complete; otherwise
`_read_type` (consume the tag byte, or `TypeError` on an unknown one)
and continue with the size/payload stages. -/
def write (d : MDec) (buf : List Nat) : Except DErr (MDec × Nat) :=
  if buf.isEmpty || d.has_value then .ok (d, 0)
  else
    match d.typeI with
    | some _ => afterType d buf
    | none =>
      match buf with
      | [] => .ok (d, 0)
      | b :: rest =>
        match lookupT b with
        | none => .error (.unknownTag b)
        | some T =>
          match afterType (setType d T b) rest with
          | .error e => .error e
          | .ok (d2, u) => .ok (d2, 1 + u)
termination_by (buf.length, 1 + 2 * sizeOf d)
decreasing_by
  · apply prodLexOfLeLt
    · simp
    · omega
  · apply Prod.Lex.left
    simp

/-- `Decoder._try_read_size` followed by the dispatch at the end of
`Decoder.write`: fill the size buffer; once `_size` is known, route the
rest of the input to `_write_into_container` or `_write_into_bytes`;
if the size field is still incomplete, return (`self._size is None`). -/
def afterType (d : MDec) (remaining : List Nat) : Except DErr (MDec × Nat) :=
  match d.typeI with
  | none => .error .typeErr
  | some Tb =>
    match d.size with
    | some s =>
      if Tb.1.is_container then
        writeIntoContainer d Tb.1 Tb.2 s d.payload_list d.child remaining
      else writeIntoBytes d Tb.1 Tb.2 s remaining
    | none =>
      if (MsgPack.fillBuf Tb.1.size_len d.size_buffer remaining).length = Tb.1.size_len then
        match
          (if Tb.1.is_container then
            writeIntoContainer
              (setSize d (MsgPack.fillBuf Tb.1.size_len d.size_buffer remaining)
                (some (typeSize Tb.1 Tb.2 (MsgPack.fillBuf Tb.1.size_len d.size_buffer remaining))))
              Tb.1 Tb.2
              (typeSize Tb.1 Tb.2 (MsgPack.fillBuf Tb.1.size_len d.size_buffer remaining))
              d.payload_list d.child (MsgPack.fillRest Tb.1.size_len d.size_buffer remaining)
          else
            writeIntoBytes
              (setSize d (MsgPack.fillBuf Tb.1.size_len d.size_buffer remaining)
                (some (typeSize Tb.1 Tb.2 (MsgPack.fillBuf Tb.1.size_len d.size_buffer remaining))))
              Tb.1 Tb.2
              (typeSize Tb.1 Tb.2 (MsgPack.fillBuf Tb.1.size_len d.size_buffer remaining))
              (MsgPack.fillRest Tb.1.size_len d.size_buffer remaining)) with
        | .error e => .error e
        | .ok (d3, u) =>
          .ok (d3, MsgPack.fillTake Tb.1.size_len d.size_buffer remaining + u)
      else
        .ok (setSize d (MsgPack.fillBuf Tb.1.size_len d.size_buffer remaining) none,
          MsgPack.fillTake Tb.1.size_len d.size_buffer remaining)
termination_by (remaining.length, 2 * sizeOf d)
decreasing_by
  · apply prodLexOfLeLt
    · simp
    · have := child_sizeOf_lt d
      omega
  · apply prodLexOfLeLt
    · simp [MsgPack.fillRest, MsgPack.fillTake]
    · have := child_sizeOf_lt d
      omega

/-- `Decoder._write_into_container`: while fewer than `size` items are
done — stop when input is exhausted (`break`), else drive the live
child (creating a fresh one, whose `_read_type` consumes the next byte,
when there is none); a completed child's value moves into the item
list.  When the item count reaches `size` the loop's `else` builds the
container value. -/
def writeIntoContainer (d : MDec) (T : MpT) (tag_byte : Nat) (s : Nat)
    (items : List Value) (c? : Option MDec) (remaining : List Nat) :
    Except DErr (MDec × Nat) :=
  if items.length < s then
    match remaining with
    | [] => .ok (setContState d items c? none, 0)
    | b :: rest =>
      match c? with
      | some cd =>
        match write cd (b :: rest) with
        | .error e => .error e
        | .ok (cd2, u) =>
          if cd2.has_value then
            match writeIntoContainer d T tag_byte s (items ++ [cd2.value]) none
                ((b :: rest).drop u) with
            | .error e => .error e
            | .ok (d2, u2) => .ok (d2, u + u2)
          else .ok (setContState d items (some cd2) none, u)
      | none =>
        match lookupT b with
        | none => .error (.unknownTag b)
        | some cT =>
          match afterType (setType freshD cT b) rest with
          | .error e => .error e
          | .ok (cd2, u) =>
            if cd2.has_value then
              match writeIntoContainer d T tag_byte s (items ++ [cd2.value]) none
                  (rest.drop u) with
              | .error e => .error e
              | .ok (d2, u2) => .ok (d2, 1 + u + u2)
            else .ok (setContState d items (some cd2) none, 1 + u)
  else
    match mpBuild T tag_byte d.size_buffer (.objs items) with
    | .error e => .error e
    | .ok v => .ok (setContState d items none (some v), 0)
termination_by (remaining.length, 2 * sizeOf c?)
decreasing_by
  · apply prodLexOfLeLt
    · simp
    · simp
      omega
  · apply prodLexOfLeLt
    · simp
    · have hpos : 0 < sizeOf cd := by
        cases cd
        simp
      simp
      omega
  · apply Prod.Lex.left
    simp
  · apply Prod.Lex.left
    simp
    omega

end

/-- `Decoder()` plus one `write` call from scratch. -/
def decode1 (buf : List Nat) : Except DErr (MDec × Nat) :=
  write freshD buf

end Mpinc

namespace MsgPack

/-- C1: Chunk-invariance over partitions into possibly-empty chunks
fails on `decoder.py`.  `E = [0x01]` is the valid encoding of the value
1; the partition `[[0x01], []]` has the same total consumed count (1)
as the single whole-buffer write, but the trailing empty `write` call
re-enters the exhausted generator, whose fresh `StopIteration` carries
`value = None`, so the final decoded value becomes `None` instead of
1. -/
theorem claim_C1_empty_chunk_breaks_chunk_invariance :
    runWrites Decoder [[0x01]] = .ok (⟨true, .int 1, none⟩, 1) ∧
    runWrites Decoder [[0x01], []] = .ok (⟨true, .nil, none⟩, 1) := by
  have h : get_format 0x01 = some fmt_positive_fixint := by decide
  constructor <;>
    simp [runWrites, write, Decoder, coWrite, childLoop, h, fillBuf, fillTake, fillRest,
      fmt_positive_fixint, make_format, get_N_and_L, buildVal, runBuild, runLFn]

/-- C2: One-shot completeness fails for the signed-int tags of the wire
format table.  `[0xd0, 0x05]` encodes int8 5 per the table, but
`decoder.py` registered `int8..int64` at tags `0xcc..0xcf` instead of
`0xd0..0xd3`, so `get_format(0xd0)` matches nothing and the first write
dies with the unknown-tag assertion instead of completing with value 5
and consumed count 2. -/
theorem claim_C2_int8_encoding_hits_unknown_tag :
    write Decoder [0xd0, 0x05] = .error (.unknownTag 0xd0) := by
  have h : get_format 0xd0 = none := by decide
  simp [write, Decoder, coWrite, h]

/-- C3: Descriptor-table soundness fails: no registry entry matches the
signed-int tags `0xd0..0xd3` of the wire-format table, while each of
`0xcc..0xcf` is matched by two entries (the `uint*` and the misfiled
`int*` descriptors), of which `get_format` returns the first (the
unsigned one). -/
theorem claim_C3_registry_match_counts :
    (formats.filter (fun f => 0xd0 &&& f.tag_mask == f.tag)).length = 0 ∧
    (formats.filter (fun f => 0xd1 &&& f.tag_mask == f.tag)).length = 0 ∧
    (formats.filter (fun f => 0xd2 &&& f.tag_mask == f.tag)).length = 0 ∧
    (formats.filter (fun f => 0xd3 &&& f.tag_mask == f.tag)).length = 0 ∧
    (formats.filter (fun f => 0xcc &&& f.tag_mask == f.tag)).length = 2 ∧
    (formats.filter (fun f => 0xcd &&& f.tag_mask == f.tag)).length = 2 ∧
    (formats.filter (fun f => 0xce &&& f.tag_mask == f.tag)).length = 2 ∧
    (formats.filter (fun f => 0xcf &&& f.tag_mask == f.tag)).length = 2 ∧
    get_format 0xd0 = none ∧ get_format 0xcc = some fmt_uint8 := by
  decide

/-- C4 counterexample: the `decoder.py` and `mpinc.py` formulations do
not report the same completion status on the input `[0xe0]` (negative
fixint 0): the former completes, the latter raises its unknown-tag
`TypeError`, so the claimed three-way behavioural equivalence is
false. -/
theorem claim_C4_not_equivalent_at_0xe0 :
    (write Decoder [0xe0]).isOk = true ∧
    (Mpinc.write Mpinc.freshD [0xe0]).isOk = false := by
  have h : get_format 0xe0 = some fmt_negative_fixint := by decide
  have h2 : (224 : Nat) &&& 31 = 0 := by decide
  have hm : Mpinc.lookupT 0xe0 = none := by decide
  constructor
  · simp [write, Decoder, coWrite, childLoop, h, h2, Except.isOk, Except.toBool,
      fillBuf, fillTake, fillRest,
      fmt_negative_fixint, make_format, get_N_and_L, buildVal, runBuild, runLFn]
  · simp [Mpinc.write, Mpinc.freshD, Mpinc.MDec.has_value, Mpinc.MDec.typeI, hm,
      Except.isOk, Except.toBool]

/-- C4 amended: the formulations are not behaviourally equivalent.
`mpinc.py`'s registry (`MessagePackTypes`) omits formats that
`decoder.py` handles — on `[0xe0]` `decoder.py` completes with value 0
consuming 1 byte while `mpinc.py` fails with its unknown-tag error —
and on `[0x90]` (empty fixarray) `mpinc.py` builds the Python tuple
`()` where `decoder.py` builds the list `[]`. -/
theorem claim_C4_amended_inequivalences :
    write Decoder [0xe0] = .ok (⟨true, .int 0, none⟩, 1) ∧
    Mpinc.write Mpinc.freshD [0xe0] = .error (.unknownTag 0xe0) ∧
    write Decoder [0x90] = .ok (⟨true, .arr [], none⟩, 1) ∧
    Mpinc.write Mpinc.freshD [0x90] =
      .ok (.mk true (.tup []) []
        (some (Mpinc.make_type 0x90 "fixarray" .tupleB 0 4 true .idS, 0x90))
        (some 0) [] [] none, 1) := by
  have h : get_format 0xe0 = some fmt_negative_fixint := by decide
  have h2 : (224 : Nat) &&& 31 = 0 := by decide
  have hm : Mpinc.lookupT 0xe0 = none := by decide
  have h3 : get_format 0x90 = some fmt_fixarray := by decide
  have h4 : (144 : Nat) &&& 15 = 0 := by decide
  have hm2 : Mpinc.lookupT 0x90 = some (Mpinc.make_type 0x90 "fixarray" .tupleB 0 4 true .idS) := by
    decide
  have h5 : (15 : Nat) &&& 144 = 0 := by decide
  refine ⟨?_, ?_, ?_, ?_⟩
  · simp [write, Decoder, coWrite, childLoop, h, h2, fillBuf, fillTake, fillRest,
      fmt_negative_fixint, make_format, get_N_and_L, buildVal, runBuild, runLFn]
  · simp [Mpinc.write, Mpinc.freshD, Mpinc.MDec.has_value, Mpinc.MDec.typeI, hm]
  · simp [write, Decoder, coWrite, childLoop, h3, h4, fillBuf, fillTake, fillRest,
      fmt_fixarray, make_format, get_N_and_L, buildVal, runBuild, runLFn]
  · simp [Mpinc.write, Mpinc.freshD, Mpinc.MDec.has_value, Mpinc.MDec.typeI, hm2, h5,
      Mpinc.afterType, Mpinc.setType, Mpinc.setSize, Mpinc.MDec.size, Mpinc.MDec.size_buffer,
      Mpinc.make_type, Mpinc.runMpSizeFn, Mpinc.mpGetN, Mpinc.writeIntoContainer,
      Mpinc.MDec.payload_list, Mpinc.MDec.child, Mpinc.mpBuild, Mpinc.runMpBuild,
      Mpinc.setContState, Mpinc.typeSize, fillBuf, fillTake, fillRest]

/-- C5: Idempotence after completion fails on `decoder.py`.  After
decoding the value 1 from `[0x01]`, a further `write` with any buffer
does return 0 bytes consumed and keeps `full = True`, but it resets the
stored `value` to `None` (the fresh `StopIteration`'s `value`) instead
of leaving it unchanged. -/
theorem claim_C5_post_completion_write_resets_value :
    write Decoder [0x01] = .ok (⟨true, .int 1, none⟩, 1) ∧
    write ⟨true, .int 1, none⟩ [0x02] = .ok (⟨true, .nil, none⟩, 0) ∧
    write ⟨true, .int 1, none⟩ [] = .ok (⟨true, .nil, none⟩, 0) := by
  have h : get_format 0x01 = some fmt_positive_fixint := by decide
  refine ⟨?_, ?_, ?_⟩
  · simp [write, Decoder, coWrite, childLoop, h, fillBuf, fillTake, fillRest,
      fmt_positive_fixint, make_format, get_N_and_L, buildVal, runBuild, runLFn]
  · simp [write]
  · simp [write]

/-- C6: an input whose first byte matches no format descriptor makes
the very write call that reads that byte fail with the unknown-tag
error, regardless of what follows the byte (nothing beyond the tag byte
is consumed: the call aborts before touching the rest). -/
theorem claim_C6_unknown_first_byte_fails (b : Nat) (hb : get_format b = none)
    (rest : List Nat) :
    write Decoder (b :: rest) = .error (.unknownTag b) := by
  simp [write, Decoder, coWrite, hb]

/-- C6 witness: the reserved byte `0xc1` matches no descriptor and a
fresh decoder fed `[0xc1, 0x00]` fails with `UnknownTag 0xc1`. -/
theorem claim_C6_witness :
    get_format 0xc1 = none ∧
    write Decoder [0xc1, 0x00] = .error (.unknownTag 0xc1) :=
  ⟨by decide, claim_C6_unknown_first_byte_fails 0xc1 (by decide) [0x00]⟩

/-- A single `write` call preserves the invariant "while not complete,
the `value` attribute still holds the `None` placeholder it was
initialized with". -/
theorem write_value_placeholder {s : SpilloverWriter} {buf : List Nat}
    {s2 : SpilloverWriter} {c : Nat}
    (hs : s.full = false → s.value = Value.nil)
    (h : write s buf = .ok (s2, c)) : s2.full = false → s2.value = Value.nil := by
  unfold write at h
  split at h
  · simp at h
    intro hfull
    rw [← h.1] at hfull
    simp at hfull
  · split at h
    · simp at h
    · simp at h
      intro hfull
      rw [← h.1] at hfull ⊢
      simp at hfull ⊢
      exact hs hfull
    · simp at h
      intro hfull
      rw [← h.1] at hfull
      simp at hfull

/-- Any number of `write` calls preserves the placeholder invariant. -/
theorem runWrites_value_placeholder :
    ∀ (ws : List (List Nat)) (s0 s : SpilloverWriter) (c : Nat),
      (s0.full = false → s0.value = Value.nil) →
      runWrites s0 ws = .ok (s, c) → (s.full = false → s.value = Value.nil) := by
  intro ws
  induction ws with
  | nil =>
    intro s0 s c h0 h
    simp [runWrites] at h
    rw [← h.1]
    exact h0
  | cons b bs ih =>
    intro s0 s c h0 h
    unfold runWrites at h
    split at h
    · simp at h
    · rename_i s2 c1 hw
      split at h
      · simp at h
      · rename_i s3 c2 hr
        simp at h
        rw [← h.1]
        exact ih s2 s3 c2 (write_value_placeholder h0 hw) hr

/-- C7 counterexample: after feeding `[0x93, 0x01]` (a fixarray of
three elements with only its first element delivered) the decoder is
incomplete (`full = False`), yet reading its `value` attribute yields
the placeholder `None` — no implementation raises a precondition
violation; `decoder.py` and `mpinc.py` expose bare attributes and
`decoder_with_generators.py`'s `result()` returns `self._result`
unconditionally. -/
theorem claim_C7_counterexample_placeholder_returned :
    runWrites Decoder [[0x93, 0x01]] =
      .ok (⟨false, .nil, some (.childS fmt_fixarray 3 3 [.int 1] .tagS)⟩, 2) := by
  have h : get_format 0x93 = some fmt_fixarray := by decide
  have h1 : get_format 0x01 = some fmt_positive_fixint := by decide
  have h2 : (147 : Nat) &&& 15 = 3 := by decide
  simp [runWrites, write, Decoder, coWrite, childLoop, h, h1, h2, fillBuf, fillTake, fillRest,
    fmt_fixarray, fmt_positive_fixint, make_format, get_N_and_L, buildVal,
    runBuild, runLFn]

/-- C7 amended: querying the value of a decoder that has not reached
completion does not fail — it silently yields the placeholder `None`
(`value` is initialized to `None` and only ever assigned on
completion): every `decoder.py` state reachable by writes with
`full = False` has `value = None`. -/
theorem claim_C7_incomplete_value_is_placeholder
    (ws : List (List Nat)) (s : SpilloverWriter) (c : Nat)
    (h : runWrites Decoder ws = .ok (s, c)) (hincomplete : s.full = false) :
    s.value = Value.nil :=
  runWrites_value_placeholder ws Decoder s c (fun _ => rfl) h hincomplete

/-- C7 witness: instantiating the amended claim on the incomplete
decoder produced by writing `[0x93]`. -/
theorem claim_C7_witness :
    runWrites Decoder [[0x93]] =
      .ok (⟨false, .nil, some (.childS fmt_fixarray 3 3 [] .tagS)⟩, 1) ∧
    (⟨false, .nil, some (.childS fmt_fixarray 3 3 [] .tagS)⟩ : SpilloverWriter).value =
      Value.nil := by
  have h : get_format 0x93 = some fmt_fixarray := by decide
  have h2 : (147 : Nat) &&& 15 = 3 := by decide
  have h1 : runWrites Decoder [[0x93]] =
      .ok (⟨false, .nil, some (.childS fmt_fixarray 3 3 [] .tagS)⟩, 1) := by
    simp [runWrites, write, Decoder, coWrite, childLoop, h, h2, fillBuf, fillTake, fillRest,
      fmt_fixarray, make_format, get_N_and_L, buildVal, runBuild, runLFn]
  exact ⟨h1, claim_C7_incomplete_value_is_placeholder [[0x93]] _ 1 h1 rfl⟩

/-- Resuming at the length stage with the exact explicit-length field,
a full opaque payload, and possibly more: the length field and payload
are consumed and the value is built (`decoder_coroutine` after the tag
yield, for non-container formats). -/
theorem coWrite_nS_opaque (f : Format) (b : Nat) (nbuf payload rest : List Nat)
    (hN : f.N_size = nbuf.length)
    (hobj : f.holds_objects = false)
    (hL : (get_N_and_L f b nbuf).2 = payload.length) :
    coWrite (.nS b f []) (nbuf ++ (payload ++ rest)) =
      match buildVal f (get_N_and_L f b nbuf).1 (.bytes payload) with
      | .ok v => .ok (.inr v, nbuf.length + payload.length)
      | .error e => .error e := by
  have e1 : fillTake f.N_size [] (nbuf ++ (payload ++ rest)) = nbuf.length := by
    simp [fillTake, hN]
  have e2 : fillBuf f.N_size [] (nbuf ++ (payload ++ rest)) = nbuf := by
    simp [fillBuf, e1, List.take_left]
  have e3 : fillRest f.N_size [] (nbuf ++ (payload ++ rest)) = payload ++ rest := by
    simp [fillRest, e1, List.drop_left]
  have e4 : fillTake payload.length [] (payload ++ rest) = payload.length := by
    simp [fillTake]
  have e5 : fillBuf payload.length [] (payload ++ rest) = payload := by
    simp [fillBuf, fillTake, List.take_left]
  simp only [coWrite, e1, e2, e3, hobj, Bool.false_eq_true, if_false]
  rw [if_neg (by omega)]
  rcases hp : get_N_and_L f b nbuf with ⟨N, L⟩
  rw [hp] at hL
  simp only at hL
  subst hL
  simp only [e4, e5]
  rw [if_neg (by omega)]
  cases hb : buildVal f N (.bytes payload) <;> simp [hb]

/-- One whole-buffer `write` of a non-container value whose explicit
length field is `nbuf` and whose payload is exactly `payload`: the
builder's verdict is surfaced from this very call, and `rest` is left
unconsumed. -/
theorem write_opaque (f : Format) (b : Nat) (nbuf payload rest : List Nat)
    (hget : get_format b = some f)
    (hN : f.N_size = nbuf.length)
    (hobj : f.holds_objects = false)
    (hL : (get_N_and_L f b nbuf).2 = payload.length)
    (hC : f.L_const ≠ some 0) :
    write Decoder (b :: (nbuf ++ (payload ++ rest))) =
      match runBuild f.build_fn (.bytes payload) with
      | .ok v => .ok (⟨true, v, none⟩, 1 + (nbuf.length + payload.length))
      | .error e => .error e := by
  have h1 := coWrite_nS_opaque f b nbuf payload rest hN hobj hL
  simp only [write, Decoder, coWrite.eq_2, hget, h1, buildVal, if_neg hC]
  cases hb : runBuild f.build_fn (.bytes payload) <;> simp [hb]

/-- Every fixstr tag byte resolves to the fixstr descriptor. -/
theorem get_format_fixstr_all : ∀ n, n < 32 → get_format (0xa0 + n) = some fmt_fixstr := by
  decide

/-- The fixstr `N_mask` recovers the embedded length. -/
theorem fixstr_mask_all : ∀ n, n < 32 → (0xa0 + n) &&& 31 = n := by
  decide

/-- Big-endian value of a 1-byte field. -/
theorem fromBytesBE_one (a : Nat) : fromBytesBE [a] = a := by
  simp [fromBytesBE]

/-- Big-endian value of a 2-byte field. -/
theorem fromBytesBE_two (a b : Nat) : fromBytesBE [a, b] = a * 256 + b := by
  simp [fromBytesBE]

/-- Big-endian value of a 4-byte field. -/
theorem fromBytesBE_four (a b c d : Nat) :
    fromBytesBE [a, b, c, d] = ((a * 256 + b) * 256 + c) * 256 + d := by
  simp [fromBytesBE]

/-- C8: for each string format (fixstr, str8, str16, str32), feeding a
fresh decoder the header, the `n`-byte payload and anything after it in
one call either fails with `InvalidUtf8` — synchronously, from this
very write call, exactly when the payload is not valid UTF-8 — or
completes with the UTF-8 decoding of the payload, consuming exactly the
header plus `n` bytes. -/
theorem claim_C8_string_decode_utf8 (n : Nat) (payload rest hdr : List Nat)
    (hlen : payload.length = n)
    (hhdr : (hdr = [0xa0 + n] ∧ n < 32) ∨
            (hdr = [0xd9, n] ∧ n < 256) ∨
            (hdr = [0xda, n / 256, n % 256] ∧ n < 65536) ∨
            (hdr = [0xdb, n / 16777216 % 256, n / 65536 % 256, n / 256 % 256, n % 256] ∧
              n < 4294967296)) :
    write Decoder (hdr ++ (payload ++ rest)) =
      match utf8Decode payload with
      | some cs => .ok (⟨true, .str cs, none⟩, hdr.length + n)
      | none => .error .invalidUtf8 := by
  subst hlen
  rcases hhdr with ⟨rfl, hn⟩ | ⟨rfl, hn⟩ | ⟨rfl, hn⟩ | ⟨rfl, hn⟩
  · have hL : (get_N_and_L fmt_fixstr (0xa0 + payload.length) []).2 = payload.length := by
      simp [get_N_and_L, fmt_fixstr, make_format, runLFn, fixstr_mask_all _ hn]
    have h := write_opaque fmt_fixstr (0xa0 + payload.length) [] payload rest
      (get_format_fixstr_all _ hn) rfl rfl hL (by decide)
    simp only [List.nil_append, List.cons_append] at h ⊢
    rw [h]
    have hbf : fmt_fixstr.build_fn = .strB := by decide
    simp only [hbf, runBuild]
    cases hu : utf8Decode payload <;> simp [Nat.add_comm]
  · have hL : (get_N_and_L fmt_str8 0xd9 [payload.length]).2 = payload.length := by
      simp [get_N_and_L, fmt_str8, make_format, runLFn, fromBytesBE_one]
    have h := write_opaque fmt_str8 0xd9 [payload.length] payload rest
      (by decide) (by simp [fmt_str8, make_format]) (by decide) hL (by decide)
    simp only [List.nil_append, List.cons_append, List.append_nil] at h ⊢
    rw [h]
    have hbf : fmt_str8.build_fn = .strB := by decide
    simp only [hbf, runBuild]
    cases hu : utf8Decode payload <;> simp
    omega
  · have harith : payload.length / 256 * 256 + payload.length % 256 = payload.length := by
      omega
    have hL : (get_N_and_L fmt_str16 0xda [payload.length / 256, payload.length % 256]).2 =
        payload.length := by
      simp [get_N_and_L, fmt_str16, make_format, runLFn, fromBytesBE_two, harith]
    have h := write_opaque fmt_str16 0xda [payload.length / 256, payload.length % 256]
      payload rest (by decide) (by simp [fmt_str16, make_format]) (by decide) hL (by decide)
    simp only [List.nil_append, List.cons_append, List.append_nil] at h ⊢
    rw [h]
    have hbf : fmt_str16.build_fn = .strB := by decide
    simp only [hbf, runBuild]
    cases hu : utf8Decode payload <;> simp
    omega
  · have harith : ((payload.length / 16777216 % 256 * 256 + payload.length / 65536 % 256) * 256 +
        payload.length / 256 % 256) * 256 + payload.length % 256 = payload.length := by
      omega
    have hL : (get_N_and_L fmt_str32 0xdb [payload.length / 16777216 % 256,
        payload.length / 65536 % 256, payload.length / 256 % 256, payload.length % 256]).2 =
        payload.length := by
      simp [get_N_and_L, fmt_str32, make_format, runLFn, fromBytesBE_four, harith]
    have h := write_opaque fmt_str32 0xdb [payload.length / 16777216 % 256,
        payload.length / 65536 % 256, payload.length / 256 % 256, payload.length % 256]
      payload rest (by decide) (by simp [fmt_str32, make_format]) (by decide) hL (by decide)
    simp only [List.nil_append, List.cons_append, List.append_nil] at h ⊢
    rw [h]
    have hbf : fmt_str32.build_fn = .strB := by decide
    simp only [hbf, runBuild]
    cases hu : utf8Decode payload <;> simp
    omega

/-- C8 witness: the fixstr of length 1 over the valid byte `0x61`
decodes to the one-character string, and over the invalid byte `0xff`
fails with `InvalidUtf8`. -/
theorem claim_C8_witness :
    write Decoder [0xa1, 0x61] = .ok (⟨true, .str [0x61], none⟩, 2) ∧
    write Decoder [0xa1, 0xff] = .error .invalidUtf8 := by
  have h1 := claim_C8_string_decode_utf8 1 [0x61] [] [0xa1] rfl (Or.inl ⟨rfl, by omega⟩)
  have h2 := claim_C8_string_decode_utf8 1 [0xff] [] [0xa1] rfl (Or.inl ⟨rfl, by omega⟩)
  have hu1 : utf8Decode [0x61] = some [0x61] := by decide
  have hu2 : utf8Decode [0xff] = (none : Option (List Nat)) := by decide
  rw [hu1] at h1
  rw [hu2] at h2
  constructor
  · simpa using h1
  · simpa using h2

end MsgPack

namespace MsgPack


theorem formats_mapSafe : ∀ f ∈ formats, mapSafe f = true := by decide

theorem get_format_mapSafe {b : Nat} {f : Format} (h : get_format b = some f) :
    mapSafe f = true :=
  formats_mapSafe f (List.mem_of_find?_eq_some h)

theorem mapSafe_L_even (f : Format) (hf : mapSafe f = true) (b : Nat) (nb : List Nat)
    (hm : f.build_fn = .mapB) : (get_N_and_L f b nb).2 % 2 = 0 := by
  simp [mapSafe, hm] at hf
  obtain ⟨h1, h2⟩ := hf
  simp only [get_N_and_L, h1, h2, runLFn]
  omega

theorem okRes_ok_count {r : CoState ⊕ Value} {c c' : Nat}
    (h : okRes (.ok (r, c))) : okRes (.ok (r, c')) := by
  cases r <;> exact h

theorem runBuild_no_oddMap_num (bf : BuildFn) (n : Nat) :
    runBuild bf (.num n) ≠ .error .oddMap := by
  cases bf <;> simp [runBuild]

theorem runBuild_no_oddMap_bytes (bf : BuildFn) (bs : List Nat) :
    runBuild bf (.bytes bs) ≠ .error .oddMap := by
  cases bf
  case strB =>
    simp only [runBuild]
    cases h : utf8Decode bs <;> simp [h]
  case extB => cases bs <;> simp [runBuild]
  all_goals simp [runBuild]

theorem runBuild_no_oddMap_objs (bf : BuildFn) (items : List Value) (hbf : bf ≠ .mapB) :
    runBuild bf (.objs items) ≠ .error .oddMap := by
  cases bf <;> simp [runBuild] at hbf ⊢

theorem buildVal_bytes_no_oddMap (f : Format) (N : Nat) (bs : List Nat) :
    buildVal f N (.bytes bs) ≠ .error .oddMap := by
  unfold buildVal
  by_cases h : f.L_const = some 0
  · simp only [if_pos h]; exact runBuild_no_oddMap_num _ _
  · simp only [if_neg h]; exact runBuild_no_oddMap_bytes _ _

theorem buildVal_objs_no_oddMap (f : Format) (N : Nat) (items : List Value)
    (h : f.build_fn = .mapB → items.length % 2 = 0) :
    buildVal f N (.objs items) ≠ .error .oddMap := by
  unfold buildVal
  by_cases hc : f.L_const = some 0
  · simp only [if_pos hc]; exact runBuild_no_oddMap_num _ _
  · simp only [if_neg hc]
    by_cases hm : f.build_fn = .mapB
    · simp [runBuild, hm, h hm]
    · exact runBuild_no_oddMap_objs _ _ hm

theorem mapFlag_of_imp {f : Format} {L : Nat} (h : f.build_fn = .mapB → L % 2 = 0) :
    (f.build_fn != .mapB || decide (L % 2 = 0)) = true := by
  by_cases hm : f.build_fn = .mapB
  · simp [hm, h hm]
  · simp [hm]

theorem imp_of_mapFlag {f : Format} {L : Nat}
    (h : (f.build_fn != .mapB || decide (L % 2 = 0)) = true) :
    f.build_fn = .mapB → L % 2 = 0 := by
  intro hm
  simp [hm] at h
  exact h

theorem coWrite_safe :
    ∀ (s : CoState) (input : List Nat), safeState s = true → okRes (coWrite s input) := by
  refine coWrite.induct
    (fun s input => safeState s = true → okRes (coWrite s input))
    (fun f N L items input =>
      (f.build_fn = .mapB → L % 2 = 0) → items.length ≤ L →
        okRes (childLoop f N L items input))
    ?_ ?_ ?_ ?_ ?_ ?_ ?_ ?_ ?_ ?_ ?_ ?_ ?_ ?_ ?_ ?_ ?_ ?_ ?_ ?_ ?_ ?_ ?_ ?_ ?_
  · intro hs
    simp [coWrite, okRes, safeState]
  · intro b rest hget
    intro hs
    simp [coWrite, hget, okRes]
  · intro b rest f hget e hrec ih
    intro hs
    have h2 := ih (by simp [safeState, get_format_mapSafe hget])
    rw [hrec] at h2
    simp only [coWrite, hget, hrec]
    exact h2
  · intro b rest f hget r0 c0 hrec ih
    intro hs
    have h2 := ih (by simp [safeState, get_format_mapSafe hget])
    rw [hrec] at h2
    simp only [coWrite, hget, hrec]
    exact okRes_ok_count h2
  · intro b f got input hlt
    intro hs
    simp only [safeState] at hs
    simp only [coWrite, if_pos hlt]
    simpa [okRes, safeState] using hs
  · intro b f got input hfull N L hNL hobj e hcl ih
    intro hs
    simp only [safeState] at hs
    have hLeven : f.build_fn = .mapB → L % 2 = 0 := by
      intro hm
      have h3 := mapSafe_L_even f hs b (fillBuf f.N_size got input) hm
      rw [hNL] at h3
      exact h3
    have h2 := ih hLeven (by simp)
    rw [hcl] at h2
    simp only [coWrite, if_neg hfull, hNL, hobj, hcl]
    exact h2
  · intro b f got input hfull N L hNL hobj r0 c0 hcl ih
    intro hs
    simp only [safeState] at hs
    have hLeven : f.build_fn = .mapB → L % 2 = 0 := by
      intro hm
      have h3 := mapSafe_L_even f hs b (fillBuf f.N_size got input) hm
      rw [hNL] at h3
      exact h3
    have h2 := ih hLeven (by simp)
    rw [hcl] at h2
    simp only [coWrite, if_neg hfull, hNL, hobj, hcl]
    exact okRes_ok_count h2
  · intro b f got input hfull N L hNL hobj hlt2
    intro hs
    simp only [coWrite, if_neg hfull, hNL, hobj, Bool.false_eq_true, if_false,
      if_pos hlt2]
    simp [okRes, safeState]
  · intro b f got input hfull N L hNL hobj hfull2 e hbuild
    intro hs
    simp only [coWrite, if_neg hfull, hNL, hobj, Bool.false_eq_true, if_false,
      if_neg hfull2, hbuild]
    simp only [okRes]
    rintro rfl
    exact buildVal_bytes_no_oddMap _ _ _ hbuild
  · intro b f got input hfull N L hNL hobj hfull2 v hbuild
    intro hs
    simp only [coWrite, if_neg hfull, hNL, hobj, Bool.false_eq_true, if_false,
      if_neg hfull2, hbuild]
    simp [okRes]
  · intro f N L got input hlt
    intro hs
    simp only [coWrite, if_pos hlt]
    simp [okRes, safeState]
  · intro f N L got input hfull e hbuild
    intro hs
    simp only [coWrite, if_neg hfull, hbuild]
    simp only [okRes]
    rintro rfl
    exact buildVal_bytes_no_oddMap _ _ _ hbuild
  · intro f N L got input hfull v hbuild
    intro hs
    simp only [coWrite, if_neg hfull, hbuild]
    simp [okRes]
  · intro f N L items child input e hcw ih
    intro hs
    simp only [safeState, Bool.and_eq_true] at hs
    obtain ⟨⟨hflag, hlen⟩, hchild⟩ := hs
    have h2 := ih hchild
    rw [hcw] at h2
    simp only [coWrite, hcw]
    exact h2
  · intro f N L items child input child2 c0 hcw ih
    intro hs
    simp only [safeState, Bool.and_eq_true] at hs
    obtain ⟨⟨hflag, hlen⟩, hchild⟩ := hs
    have h2 := ih hchild
    rw [hcw] at h2
    simp only [okRes] at h2
    simp only [coWrite, hcw]
    simp only [okRes, safeState, Bool.and_eq_true]
    exact ⟨⟨hflag, hlen⟩, h2⟩
  · intro f N L items child input v c0 hcw e hcl ih2 ih1
    intro hs
    simp only [safeState, Bool.and_eq_true] at hs
    obtain ⟨⟨hflag, hlen⟩, hchild⟩ := hs
    have h2 := ih1 (imp_of_mapFlag hflag) (by
      simp only [decide_eq_true_eq] at hlen
      simp
      omega)
    rw [hcl] at h2
    simp only [coWrite, hcw, hcl]
    exact h2
  · intro f N L items child input v c1 hcw r1 c2 hcl ih2 ih1
    intro hs
    simp only [safeState, Bool.and_eq_true] at hs
    obtain ⟨⟨hflag, hlen⟩, hchild⟩ := hs
    have h2 := ih1 (imp_of_mapFlag hflag) (by
      simp only [decide_eq_true_eq] at hlen
      simp
      omega)
    rw [hcl] at h2
    simp only [coWrite, hcw, hcl]
    exact okRes_ok_count h2
  · intro f N L items hlt himp hle
    simp only [childLoop, if_pos hlt]
    simp only [okRes, safeState, Bool.and_eq_true]
    exact ⟨⟨mapFlag_of_imp himp, by simpa using hlt⟩, trivial⟩
  · intro f N L items hlt b rest hget himp hle
    simp only [childLoop, if_pos hlt, hget]
    simp [okRes]
  · intro f1 N L items hlt b rest f hget e hcw ih himp hle
    have h2 := ih (by simp [safeState, get_format_mapSafe hget])
    rw [hcw] at h2
    simp only [childLoop, if_pos hlt, hget, hcw]
    exact h2
  · intro f1 N L items hlt b rest f hget child2 c1 hcw ih himp hle
    have h2 := ih (by simp [safeState, get_format_mapSafe hget])
    rw [hcw] at h2
    simp only [okRes] at h2
    simp only [childLoop, if_pos hlt, hget, hcw]
    simp only [okRes, safeState, Bool.and_eq_true]
    exact ⟨⟨mapFlag_of_imp himp, by simpa using hlt⟩, h2⟩
  · intro f1 N L items hlt b rest f hget v c1 hcw e hcl ih2 ih1 himp hle
    have h2 := ih1 himp (by simp; omega)
    rw [hcl] at h2
    simp only [childLoop, if_pos hlt, hget, hcw, hcl]
    exact h2
  · intro f1 N L items hlt b rest f hget v c1 hcw r1 c2 hcl ih2 ih1 himp hle
    have h2 := ih1 himp (by simp; omega)
    rw [hcl] at h2
    simp only [childLoop, if_pos hlt, hget, hcw, hcl]
    exact okRes_ok_count h2
  · intro f N L items input hge e hbuild himp hle
    rw [childLoop.eq_def]
    rw [if_neg hge]
    rw [hbuild]
    simp only [okRes]
    rintro rfl
    refine buildVal_objs_no_oddMap f N items ?_ hbuild
    intro hm
    have : items.length = L := by omega
    rw [this]
    exact himp hm
  · intro f N L items input hge v hbuild himp hle
    rw [childLoop.eq_def]
    rw [if_neg hge]
    rw [hbuild]
    simp [okRes]

theorem write_safe (w : SpilloverWriter) (buf : List Nat) (hw : safeSW w = true) :
    write w buf ≠ .error .oddMap ∧
    ∀ w' c, write w buf = .ok (w', c) → safeSW w' = true := by
  rcases hg : w.gen with - | s
  · simp [write, hg, safeSW]
  · simp only [safeSW, hg] at hw
    have h := coWrite_safe s buf hw
    simp only [write, hg]
    rcases hc : coWrite s buf with e | ⟨r, c0⟩
    · rw [hc] at h
      simp only [okRes] at h
      simp [h]
    · rw [hc] at h
      cases r with
      | inl s2 =>
        simp only [okRes] at h
        constructor
        · simp
        · intro w' c heq
          simp at heq
          obtain ⟨hw', -⟩ := heq
          rw [← hw']
          simpa [safeSW] using h
      | inr v =>
        constructor
        · simp
        · intro w' c heq
          simp at heq
          obtain ⟨hw', -⟩ := heq
          rw [← hw']
          simp [safeSW]

theorem runWrites_no_oddMap :
    ∀ (chunks : List (List Nat)) (w : SpilloverWriter), safeSW w = true →
      runWrites w chunks ≠ .error .oddMap
  | [], w, hw => by simp [runWrites]
  | b :: bs, w, hw => by
    have h := write_safe w b hw
    rcases hc : write w b with e | ⟨s2, c⟩
    · have h1 := h.1
      rw [hc] at h1
      simp only [runWrites, hc]
      simpa using h1
    · have hs2 := h.2 s2 c hc
      have hrec := runWrites_no_oddMap bs s2 hs2
      rcases hr : runWrites s2 bs with e2 | ⟨s3, c2⟩
      · rw [hr] at hrec
        simp only [runWrites, hc, hr]
        simpa using hrec
      · simp only [runWrites, hc, hr]
        simp

theorem dictLookup_dictInsert_self (k v : Value) :
    ∀ p, dictLookup (dictInsert p k v) k = some v
  | [] => by simp [dictInsert, dictLookup, vbeq_refl]
  | (k', v') :: rest => by
    by_cases h : vbeq k' k = true
    · simp [dictInsert, h, dictLookup]
    · simp [dictInsert, h, dictLookup, dictLookup_dictInsert_self k v rest]

theorem pairsToDict_append_even :
    ∀ (items : List Value) (acc : List (Value × Value)), items.length % 2 = 0 →
      ∀ k v, pairsToDict acc (items ++ [k, v]) = dictInsert (pairsToDict acc items) k v
  | [], acc, _, k, v => by simp [pairsToDict]
  | [x], acc, h, k, v => by simp at h
  | x :: y :: rest, acc, h, k, v => by
    have h2 : rest.length % 2 = 0 := by
      simp [List.length] at h ⊢
      omega
    simp only [List.cons_append, pairsToDict]
    exact pairsToDict_append_even rest (dictInsert acc x y) h2 k v

/-- C9: map-pairing safety.  (i) Every registry format built by
`build_map` (fixmap, map16, map32) computes its payload length as
`L = 2 * N` via `map_len`, so (ii) along any sequence of `write` calls
on a fresh `decoder.py` decoder the odd-item-count check of `build_map`
(the `OddMapPayload` internal-invariant assertion, `DErr.oddMap`) can
never fire, and (iii) the builder pairs consecutive items as key then
value with the last pair winning on duplicate keys: appending a final
key/value pair to an even-length item list makes the built map answer
that key with that value. -/
theorem claim_C9_map_pairing_safety :
    (∀ f ∈ formats, f.build_fn = .mapB →
        ∀ tb nb, (get_N_and_L f tb nb).2 = 2 * (get_N_and_L f tb nb).1) ∧
    (∀ chunks, runWrites Decoder chunks ≠ .error .oddMap) ∧
    (∀ (items : List Value) (k v : Value) (pairs : List (Value × Value)),
        items.length % 2 = 0 →
        runBuild .mapB (.objs (items ++ [k, v])) = .ok (.map pairs) →
        dictLookup pairs k = some v) := by
  refine ⟨?_, ?_, ?_⟩
  · intro f hf hm tb nb
    have hs := formats_mapSafe f hf
    simp [mapSafe, hm] at hs
    obtain ⟨h1, h2⟩ := hs
    simp [get_N_and_L, h1, h2, runLFn]
  · intro chunks
    exact runWrites_no_oddMap chunks Decoder rfl
  · intro items k v pairs he hb
    have hlen : (items ++ [k, v]).length % 2 = 0 := by
      simp
      omega
    simp only [runBuild, if_pos hlen] at hb
    simp at hb
    rw [← hb]
    rw [pairsToDict_append_even items [] he k v]
    exact dictLookup_dictInsert_self k v (pairsToDict [] items)

/-- C9 witness: the fixmap descriptor doubles its `N`; a complete
fixmap decode never raises the odd-map assertion; and building a map
whose items end with a duplicate key `1` and value `3` makes `1` map to
`3`. -/
theorem claim_C9_witness :
    ((get_N_and_L fmt_fixmap 0x82 []).2 = 2 * (get_N_and_L fmt_fixmap 0x82 []).1) ∧
    (runWrites Decoder [[0x81, 0x01, 0x02]] ≠ .error .oddMap) ∧
    dictLookup [(.int 1, .int 3)] (.int 1) = some (.int 3) :=
  ⟨claim_C9_map_pairing_safety.1 fmt_fixmap (by decide) (by decide) 0x82 [],
   claim_C9_map_pairing_safety.2.1 [[0x81, 0x01, 0x02]],
   claim_C9_map_pairing_safety.2.2 [.int 1, .int 2] (.int 1) (.int 3)
     [(.int 1, .int 3)] (by decide) (by rfl)⟩

/-- `coWrite` never reports consuming more bytes than it was given. -/
theorem cw_bound :

    ∀ (s : CoState) (input : List Nat),
      (∀ r c, coWrite s input = .ok (r, c) → c ≤ input.length) := by
  refine coWrite.induct
    (fun s input => ∀ r c, coWrite s input = .ok (r, c) → c ≤ input.length)
    (fun f N L items input =>
      ∀ r c, childLoop f N L items input = .ok (r, c) → c ≤ input.length)
    ?_ ?_ ?_ ?_ ?_ ?_ ?_ ?_ ?_ ?_ ?_ ?_ ?_ ?_ ?_ ?_ ?_ ?_ ?_ ?_ ?_ ?_ ?_ ?_ ?_
  · intro r c h
    simp [coWrite] at h
    omega
  · intro b rest hget
    intro r c h
    simp [coWrite, hget] at h
  · intro b rest f hget e hrec ih
    intro r c h
    simp [coWrite, hget, hrec] at h
  · intro b rest f hget r0 c0 hrec ih
    intro r c h
    simp only [coWrite, hget, hrec] at h
    have hb := ih r0 c0 hrec
    simp at h ⊢
    omega
  · intro b f got input hlt
    intro r c h
    simp only [coWrite, if_pos hlt] at h
    simp at h
    obtain ⟨-, h2⟩ := h
    simp only [fillTake] at h2
    omega
  · intro b f got input hfull N L hNL hobj e hcl ih
    intro r c h
    simp only [coWrite, if_neg hfull, hNL, hobj, hcl] at h
    simp at h
  · intro b f got input hfull N L hNL hobj r0 c0 hcl ih
    intro r c h
    simp only [coWrite, if_neg hfull, hNL, hobj, hcl] at h
    have hb := ih r0 c0 hcl
    simp only [fillRest, fillTake, List.length_drop] at hb
    simp at h
    obtain ⟨-, h2⟩ := h
    simp only [fillTake] at h2
    omega
  · intro b f got input hfull N L hNL hobj hlt2
    intro r c h
    simp only [coWrite, if_neg hfull, hNL, hobj, Bool.false_eq_true, if_false,
      if_pos hlt2] at h
    simp at h
    obtain ⟨-, h2⟩ := h
    simp only [fillTake, fillRest, List.length_drop] at h2
    omega
  · intro b f got input hfull N L hNL hobj hfull2 e hbuild
    intro r c h
    simp only [coWrite, if_neg hfull, hNL, hobj, Bool.false_eq_true, if_false,
      if_neg hfull2, hbuild] at h
    simp at h
  · intro b f got input hfull N L hNL hobj hfull2 v hbuild
    intro r c h
    simp only [coWrite, if_neg hfull, hNL, hobj, Bool.false_eq_true, if_false,
      if_neg hfull2, hbuild] at h
    simp at h
    obtain ⟨-, h2⟩ := h
    simp only [fillTake, fillRest, List.length_drop] at h2
    omega
  · intro f N L got input hlt
    intro r c h
    simp only [coWrite, if_pos hlt] at h
    simp at h
    obtain ⟨-, h2⟩ := h
    simp only [fillTake] at h2
    omega
  · intro f N L got input hfull e hbuild
    intro r c h
    simp only [coWrite, if_neg hfull, hbuild] at h
    simp at h
  · intro f N L got input hfull v hbuild
    intro r c h
    simp only [coWrite, if_neg hfull, hbuild] at h
    simp at h
    obtain ⟨-, h2⟩ := h
    simp only [fillTake] at h2
    omega
  · intro f N L items child input e hcw ih
    intro r c h
    simp only [coWrite, hcw] at h
    simp at h
  · intro f N L items child input child2 c0 hcw ih
    intro r c h
    simp only [coWrite, hcw] at h
    have hb := ih (Sum.inl child2) c0 hcw
    simp at h
    omega
  · intro f N L items child input v c0 hcw e hcl ih2 ih1
    intro r c h
    simp only [coWrite, hcw, hcl] at h
    simp at h
  · intro f N L items child input v c1 hcw r1 c2 hcl ih2 ih1
    intro r c h
    simp only [coWrite, hcw, hcl] at h
    have hb1 := ih2 (Sum.inr v) c1 hcw
    have hb2 := ih1 r1 c2 hcl
    simp only [List.length_drop] at hb2
    simp at h
    omega
  · intro f N L items hlt r c ha
    simp only [childLoop, if_pos hlt] at ha
    simp at ha
    omega
  · intro f N L items hlt b rest hget r c ha
    simp only [childLoop, if_pos hlt, hget] at ha
    simp at ha
  · intro f1 N L items hlt b rest f hget e hcw ih r c ha
    simp only [childLoop, if_pos hlt, hget, hcw] at ha
    simp at ha
  · intro f1 N L items hlt b rest f hget child2 c1 hcw ih r c ha
    simp only [childLoop, if_pos hlt, hget, hcw] at ha
    have hb := ih (Sum.inl child2) c1 hcw
    simp at ha ⊢
    omega
  · intro f1 N L items hlt b rest f hget v c1 hcw e hcl ih2 ih1 r c ha
    simp only [childLoop, if_pos hlt, hget, hcw, hcl] at ha
    simp at ha
  · intro f1 N L items hlt b rest f hget v c1 hcw r1 c2 hcl ih2 ih1 r c ha
    simp only [childLoop, if_pos hlt, hget, hcw, hcl] at ha
    have hb1 := ih2 (Sum.inr v) c1 hcw
    have hb2 := ih1 r1 c2 hcl
    simp only [List.length_drop] at hb2
    simp at ha ⊢
    omega
  · intro f N L items input hge e hbuild r c ha
    rw [childLoop.eq_def] at ha
    rw [if_neg hge] at ha
    rw [hbuild] at ha
    simp at ha
  · intro f N L items input hge v hbuild r c ha
    rw [childLoop.eq_def] at ha
    rw [if_neg hge] at ha
    rw [hbuild] at ha
    simp at ha
    omega

/-- `SpilloverWriter.write` never reports consuming more bytes than it
was given (an exhausted generator consumes 0). -/
theorem spillWrite_bound (w : SpilloverWriter) (buf : List Nat) (w' : SpilloverWriter)
    (c : Nat) (h : write w buf = .ok (w', c)) : c ≤ buf.length := by
  rcases hg : w.gen with - | s
  · simp only [write, hg] at h
    simp at h
    omega
  · simp only [write, hg] at h
    rcases hc : coWrite s buf with e | ⟨r, c0⟩
    · rw [hc] at h
      simp at h
    · rw [hc] at h
      have hb := cw_bound s buf r c0 hc
      cases r with
      | inl s2 =>
        simp at h
        obtain ⟨-, h2⟩ := h
        omega
      | inr v =>
        simp at h
        obtain ⟨-, h2⟩ := h
        omega

/-- `MessagePackDecoder.write` of `decoder_with_generators.py` never
reports consuming more bytes than it was given. -/
theorem gwrite_bound (g : GenDecoder) (buf : List Nat) (g' : GenDecoder)
    (c : Nat) (h : gwrite g buf = .ok (g', c)) : c ≤ buf.length := by
  rcases hg : g.gen with - | s
  · simp only [gwrite, hg] at h
    simp at h
    omega
  · simp only [gwrite, hg] at h
    rcases hc : coWrite s buf with e | ⟨r, c0⟩
    · rw [hc] at h
      simp at h
    · rw [hc] at h
      have hb := cw_bound s buf r c0 hc
      cases r with
      | inl s2 =>
        simp at h
        obtain ⟨-, h2⟩ := h
        omega
      | inr v =>
        simp at h
        obtain ⟨-, h2⟩ := h
        omega

end MsgPack

namespace Mpinc

open MsgPack (Value DErr fillTake fillBuf fillRest)

/-- `Decoder._write_into_bytes` never reports consuming more bytes than
it was given. -/
theorem wb_bound (d : MDec) (T : MpT) (tb s : Nat) (remaining : List Nat)
    (d' : MDec) (c : Nat) (h : writeIntoBytes d T tb s remaining = .ok (d', c)) :
    c ≤ remaining.length := by
  unfold writeIntoBytes at h
  split at h
  · split at h
    · simp at h
    · simp at h
      obtain ⟨-, h2⟩ := h
      simp only [fillTake] at h2
      omega
  · simp at h
    obtain ⟨-, h2⟩ := h
    simp only [fillTake] at h2
    omega


/-- `mpinc.py`'s `Decoder.write` (with `_read_type`,
`_try_read_size`, `_write_into_container`) never reports consuming more
bytes than it was given. -/
theorem mp_bound :
    ∀ (d : MDec) (buf : List Nat),
      (∀ d' c, Mpinc.write d buf = .ok (d', c) → c ≤ buf.length) := by
  refine Mpinc.write.induct
    (fun d buf => ∀ d' c, Mpinc.write d buf = .ok (d', c) → c ≤ buf.length)
    (fun d remaining =>
      ∀ d' c, afterType d remaining = .ok (d', c) → c ≤ remaining.length)
    (fun d T tb s items c? remaining =>
      ∀ d' c, writeIntoContainer d T tb s items c? remaining = .ok (d', c) →
        c ≤ remaining.length)
    ?_ ?_ ?_ ?_ ?_ ?_ ?_ ?_ ?_ ?_ ?_ ?_ ?_ ?_ ?_ ?_ ?_ ?_ ?_ ?_ ?_ ?_ ?_ ?_
  · intro d buf hguard
    intro d' c h
    cases buf with
    | nil =>
      simp only [Mpinc.write, hguard] at h
      simp at h
      omega
    | cons b rest =>
      simp only [Mpinc.write, hguard] at h
      simp at h
      omega
  · intro d buf hguard Tb htype ih
    intro d' c h
    cases buf with
    | nil =>
      simp only [Mpinc.write, hguard, htype] at h
      exact ih d' c h
    | cons b rest =>
      simp only [Mpinc.write, hguard, htype] at h
      exact ih d' c h
  · intro d htype hguard
    simp at hguard
  · intro d htype b rest hlook hguard
    intro d' c h
    simp only [Mpinc.write, hguard, htype, hlook] at h
    simp at h
  · intro d htype b rest T hlook e hat hguard ih
    intro d' c h
    simp only [Mpinc.write, hguard, htype, hlook, hat] at h
    simp at h
  · intro d htype b rest T hlook d2 u hat hguard ih
    intro d' c h
    simp only [Mpinc.write, hguard, htype, hlook, hat] at h
    have hb := ih d2 u hat
    simp at h ⊢
    omega
  · intro d remaining htype d' c ha
    rw [afterType.eq_def] at ha
    simp only [htype] at ha
    simp at ha
  · intro d remaining Tb htype s hsize hcont ih d' c ha
    rw [afterType.eq_def] at ha
    simp only [htype, hsize, if_pos hcont] at ha
    exact ih d' c ha
  · intro d remaining Tb htype s hsize hcont d' c ha
    rw [afterType.eq_def] at ha
    simp only [htype, hsize] at ha
    rw [if_neg hcont] at ha
    exact wb_bound _ _ _ _ _ _ _ ha
  · intro d remaining Tb htype hsize hfull e hres ih d' c ha
    rw [afterType.eq_def] at ha
    simp only [htype, hsize, if_pos hfull] at ha
    by_cases hc : Tb.1.is_container = true
    · rw [dif_pos hc] at hres
      rw [if_pos hc] at ha
      rw [hres] at ha
      simp at ha
    · rw [dif_neg hc] at hres
      rw [if_neg hc] at ha
      rw [hres] at ha
      simp at ha
  · intro d remaining Tb htype hsize hfull d2 u hres ih d' c ha
    rw [afterType.eq_def] at ha
    simp only [htype, hsize, if_pos hfull] at ha
    have hu : u ≤ (fillRest Tb.1.size_len d.size_buffer remaining).length := by
      by_cases hc : Tb.1.is_container = true
      · rw [dif_pos hc] at hres
        exact ih d2 u hres
      · rw [dif_neg hc] at hres
        exact wb_bound _ _ _ _ _ _ _ hres
    by_cases hc : Tb.1.is_container = true
    · rw [dif_pos hc] at hres
      rw [if_pos hc] at ha
      rw [hres] at ha
      simp at ha
      obtain ⟨-, h2⟩ := ha
      simp only [fillRest, fillTake, List.length_drop] at hu h2
      omega
    · rw [dif_neg hc] at hres
      rw [if_neg hc] at ha
      rw [hres] at ha
      simp at ha
      obtain ⟨-, h2⟩ := ha
      simp only [fillRest, fillTake, List.length_drop] at hu h2
      omega
  · intro d remaining Tb htype hsize hnotfull d' c ha
    rw [afterType.eq_def] at ha
    simp only [htype, hsize] at ha
    rw [if_neg hnotfull] at ha
    simp at ha
    obtain ⟨-, h2⟩ := ha
    simp only [fillTake] at h2
    omega
  · intro d T tb s items c? hlt d' c ha
    rw [writeIntoContainer.eq_def] at ha
    rw [if_pos hlt] at ha
    simp at ha
    omega
  · intro d T tb s items hlt b rest cd e hw ih d' c ha
    rw [writeIntoContainer.eq_def] at ha
    rw [if_pos hlt] at ha
    simp only [hw] at ha
    simp at ha
  · intro d T tb s items hlt b rest cd d2 u hw hhv e hwic ih2 ih1 d' c ha
    rw [writeIntoContainer.eq_def] at ha
    rw [if_pos hlt] at ha
    simp only [hw, hhv, if_pos hhv, hwic] at ha
    simp at ha
  · intro d T tb s items hlt b rest cd d2 u1 hw hhv d3 u hwic ih2 ih1 d' c ha
    rw [writeIntoContainer.eq_def] at ha
    rw [if_pos hlt] at ha
    simp only [hw, hhv, if_pos hhv, hwic] at ha
    have hb1 := ih2 d2 u1 hw
    have hb2 := ih1 d3 u hwic
    simp only [List.length_drop, List.length_cons] at hb1 hb2 ⊢
    simp at ha
    obtain ⟨-, h2⟩ := ha
    omega
  · intro d T tb s items hlt b rest cd d2 u hw hhv ih d' c ha
    rw [writeIntoContainer.eq_def] at ha
    rw [if_pos hlt] at ha
    simp only [hw, hhv] at ha
    have hb := ih d2 u hw
    simp at ha hb ⊢
    omega
  · intro d T tb s items hlt b rest hlook d' c ha
    rw [writeIntoContainer.eq_def] at ha
    rw [if_pos hlt] at ha
    simp only [hlook] at ha
    simp at ha
  · intro d T1 tb s items hlt b rest T hlook e hat ih d' c ha
    rw [writeIntoContainer.eq_def] at ha
    rw [if_pos hlt] at ha
    simp only [hlook, hat] at ha
    simp at ha
  · intro d T1 tb s items hlt b rest T hlook d2 u hat hhv e hwic ih2 ih1 d' c ha
    rw [writeIntoContainer.eq_def] at ha
    rw [if_pos hlt] at ha
    simp only [hlook, hat, hhv, if_pos hhv, hwic] at ha
    simp at ha
  · intro d T1 tb s items hlt b rest T hlook d2 u1 hat hhv d3 u hwic ih2 ih1 d' c ha
    rw [writeIntoContainer.eq_def] at ha
    rw [if_pos hlt] at ha
    simp only [hlook, hat, hhv, if_pos hhv, hwic] at ha
    have hb1 := ih2 d2 u1 hat
    have hb2 := ih1 d3 u hwic
    simp only [List.length_drop] at hb2
    simp at ha ⊢
    omega
  · intro d T1 tb s items hlt b rest T hlook d2 u hat hhv ih d' c ha
    rw [writeIntoContainer.eq_def] at ha
    rw [if_pos hlt] at ha
    simp only [hlook, hat, hhv] at ha
    have hb := ih d2 u hat
    simp at ha ⊢
    omega
  · intro d T tb s items c2 rem hge e hbuild d' c ha
    rw [writeIntoContainer.eq_def] at ha
    rw [if_neg hge] at ha
    simp only [hbuild] at ha
    simp at ha
  · intro d T tb s items c2 rem hge v hbuild d' c ha
    rw [writeIntoContainer.eq_def] at ha
    rw [if_neg hge] at ha
    simp only [hbuild] at ha
    simp at ha
    omega

end Mpinc

namespace MsgPack

/-- C10: implicit consumed-count bound.  For every decoder state and
every input buffer, each of the three `write` entry points —
`SpilloverWriter.write` of `decoder.py`, `MessagePackDecoder.write` of
`decoder_with_generators.py`, and `Decoder.write` of `mpinc.py` —
returns a count of consumed bytes that is at most the length of the
buffer it was handed (counts are naturals, so the at-least-0 half is
inherent in the model). -/
theorem claim_C10_consumed_count_bounded :
    (∀ (w : SpilloverWriter) (buf : List Nat) (w' : SpilloverWriter) (c : Nat),
        write w buf = .ok (w', c) → c ≤ buf.length) ∧
    (∀ (g : GenDecoder) (buf : List Nat) (g' : GenDecoder) (c : Nat),
        gwrite g buf = .ok (g', c) → c ≤ buf.length) ∧
    (∀ (d : Mpinc.MDec) (buf : List Nat) (d' : Mpinc.MDec) (c : Nat),
        Mpinc.write d buf = .ok (d', c) → c ≤ buf.length) :=
  ⟨spillWrite_bound, gwrite_bound, fun d buf => Mpinc.mp_bound d buf⟩

/-- C10 witness: concrete complete decodes — `[0x01]` on `decoder.py`
(1 byte consumed), `[0xc0]` on the generator decoder (1 byte), `[0x90]`
on `mpinc.py` (1 byte) — each consume no more than their input
lengths. -/
theorem claim_C10_witness :
    1 ≤ ([(0x01 : Nat)]).length ∧ 1 ≤ ([(0xc0 : Nat)]).length ∧
    1 ≤ ([(0x90 : Nat)]).length := by
  have h : get_format 0x01 = some fmt_positive_fixint := by decide
  have hn : get_format 0xc0 = some fmt_nil := by decide
  have h2 : (192 : Nat) &&& 0 = 0 := by decide
  have hm2 : Mpinc.lookupT 0x90 = some (Mpinc.make_type 0x90 "fixarray" .tupleB 0 4 true .idS) := by
    decide
  have h5 : (15 : Nat) &&& 144 = 0 := by decide
  have hw1 : write Decoder [0x01] = .ok (⟨true, .int 1, none⟩, 1) := by
    simp [write, Decoder, coWrite, childLoop, h, fillBuf, fillTake, fillRest,
      fmt_positive_fixint, make_format, get_N_and_L, buildVal, runBuild, runLFn]
  have hw2 : gwrite GenDecoder.init [0xc0] = .ok (⟨true, .nil, none⟩, 1) := by
    simp [gwrite, GenDecoder.init, coWrite, childLoop, hn, h2, fillBuf, fillTake, fillRest,
      fmt_nil, make_format, get_N_and_L, buildVal, runBuild, runLFn]
  have hw3 : Mpinc.write Mpinc.freshD [0x90] =
      .ok (.mk true (.tup []) []
        (some (Mpinc.make_type 0x90 "fixarray" .tupleB 0 4 true .idS, 0x90))
        (some 0) [] [] none, 1) := by
    simp [Mpinc.write, Mpinc.freshD, Mpinc.MDec.has_value, Mpinc.MDec.typeI, hm2, h5,
      Mpinc.afterType, Mpinc.setType, Mpinc.setSize, Mpinc.MDec.size, Mpinc.MDec.size_buffer,
      Mpinc.make_type, Mpinc.runMpSizeFn, Mpinc.mpGetN, Mpinc.writeIntoContainer,
      Mpinc.MDec.payload_list, Mpinc.MDec.child, Mpinc.mpBuild, Mpinc.runMpBuild,
      Mpinc.setContState, Mpinc.typeSize, fillBuf, fillTake, fillRest]
  exact ⟨claim_C10_consumed_count_bounded.1 Decoder [0x01] _ 1 hw1,
    claim_C10_consumed_count_bounded.2.1 GenDecoder.init [0xc0] _ 1 hw2,
    claim_C10_consumed_count_bounded.2.2 Mpinc.freshD [0x90] _ 1 hw3⟩

end MsgPack
